import Mathlib

/-!
# Pull-request creation API (`routes/api/v1/repo/pull_request.go`)

A shallow embedding of `ParseCompareInfo`, `RetrieveRepoMetas`,
`ValidateRepoMetas`, `PrepareCompareDiff` and `CreatePullRequest`.

* Go strings are lists of characters (`Str`); `int64` identifiers are `Int`.
* The packages the handler calls into (`models`, `git`, `setting`) are the
  fields of `Env`; the theorems quantify over them.
* The request context `*context.APIContext` is the record `Context`; the
  handler's effects on it (responses written, the `SameRepo` flag) and the
  calls it makes to the stores (`trace`) are threaded explicitly.
* `c.Error`, `c.HasError` (package `pkg/context`) and `tool.StringsToInt64s`,
  `tool.Int64sToMap` (package `pkg/tool`) are not among the sources and are
  modelled from the specification; their definitions say so.  Whether
  `c.Error` sets what `c.HasError` reads is left open.
* `log.Trace` calls have no effect on the outcome and are left out.
-/

namespace Gogs

/-- A Go string. -/
abbrev Str := List Char

/-! ## `strings.Split` -/

/-- Leftmost position at which `sep` occurs in `s` (`strings.Index`). -/
def Index (sep : Str) : Str → Option Nat
  | [] => if sep.isPrefixOf [] then some 0 else none
  | c :: s =>
    if sep.isPrefixOf (c :: s) then some 0
    else (Index sep s).map (· + 1)

/-- The loop of `strings.genSplit`: cut at the leftmost separator, continue
behind it.  `fuel` bounds the number of cuts. -/
def splitLoop (sep : Str) : Nat → Str → List Str
  | 0, s => [s]
  | fuel + 1, s =>
    match Index sep s with
    | none => [s]
    | some m => s.take m :: splitLoop sep fuel (s.drop (m + sep.length))

/-- Go `strings.Split(s, sep)`: with an empty separator the string is
exploded into its characters, otherwise it is cut at every non-overlapping
occurrence of `sep`, leftmost first.  A non-empty separator is found at most
`s.length` times. -/
def Split (s sep : Str) : List Str :=
  if sep = [] then s.map (fun c => [c])
  else splitLoop sep s.length s

/-! ## Data model -/

/-- The errors the stores return; the handler only inspects their kind
(`models.IsErrPullRequestNotExist`, `git.IsErrNoMergeBase`). -/
inductive GoError where
  | PullRequestNotExist
  | NoMergeBase
  | Other (msg : Str)
  deriving DecidableEq, Repr

deriving instance DecidableEq for Except

/-- The fields of `models.User` the handler reads. -/
structure User where
  ID : Int
  Name : Str
  IsAdmin : Bool
  deriving DecidableEq, Repr

/-- The fields of `models.Repository` the handler reads; `OwnerName` is
`repo.Owner.Name`. -/
structure Repository where
  ID : Int
  OwnerID : Int
  OwnerName : Str
  Name : Str
  deriving DecidableEq, Repr

/-- An opened `*git.Repository`, identified by the path it was opened at. -/
structure GitRepository where
  Path : Str
  deriving DecidableEq, Repr

/-- The field of `git.PullRequestInfo` the handler reads. -/
structure PullRequestInfo where
  MergeBase : Str
  deriving DecidableEq, Repr

/-- The fields of `models.Label` the handler touches. -/
structure Label where
  ID : Int
  IsChecked : Bool
  deriving DecidableEq, Repr

/-- The fields of `models.Issue` set by `CreatePullRequest`, and `ID`. -/
structure Issue where
  ID : Int
  RepoID : Int
  Index : Int
  Title : Str
  PosterID : Int
  Poster : User
  MilestoneID : Int
  AssigneeID : Int
  IsPull : Bool
  Content : Str
  deriving DecidableEq, Repr

/-- `models.PullRequestType`. -/
inductive PullRequestType where
  | PULL_REQUEST_GOGS
  | PULL_REQUEST_GIT
  deriving DecidableEq, Repr

/-- The fields of `models.PullRequest` set by `CreatePullRequest`, and the
`IssueID` and `Index` read from a record found by the duplicate check. -/
structure PullRequest where
  /-- the field `Type` -/
  PRType : PullRequestType
  IssueID : Int
  Index : Int
  HeadRepoID : Int
  BaseRepoID : Int
  HeadUserName : Str
  HeadBranch : Str
  BaseBranch : Str
  HeadRepo : Option Repository
  BaseRepo : Option Repository
  MergeBase : Str
  deriving DecidableEq, Repr

/-- The fields of `api.CreateIssueOption` the handler reads. -/
structure CreateIssueOption where
  Title : Str
  Body : Str
  LabelIDs : Str
  Milestone : Int
  AssigneeID : Int
  deriving DecidableEq, Repr

/-- The JSON body of the 201 and 409 answers. -/
structure pullRequestInfo where
  IssueID : Int
  Index : Int
  deriving DecidableEq, Repr

/-- What the handler writes to the client: `c.Error(status, title, obj)` or
`c.JSON(status, info)`. -/
inductive Response where
  | Error (status : Nat) (title : Str)
  | JSON (status : Nat) (info : pullRequestInfo)
  deriving DecidableEq, Repr

/-- The calls the handler makes to the metadata store and to the
version-control provider, in the order it makes them. -/
inductive Event where
  | GetUserByName (name : Str)
  | HasForkedRepo (userID repoID : Int)
  | OpenRepository (path : Str)
  | IsBranchExist (g : GitRepository) (branch : Str)
  | IsWriterOfRepo (u : User) (repo : Repository)
  | GetPullRequestInfo (g : GitRepository) (basePath baseBranch headBranch : Str)
  | GetUnmergedPullRequest (headRepoID baseRepoID : Int) (headBranch baseBranch : Str)
  | GetBranchCommitID (g : GitRepository) (branch : Str)
  | GetLabelsByRepoID (repoID : Int)
  | GetMilestones (repoID : Int) (page : Int) (isClosed : Bool)
  | GetAssignees (repo : Repository)
  | GetMilestoneByID (repo : Repository) (id : Int)
  | GetAssigneeByID (repo : Repository) (id : Int)
  | GetPatch (g : GitRepository) (mergeBase headBranch : Str)
  | NewPullRequest (repo : Repository) (pull : Issue) (labelIDs : List Int)
      (uuids : Option (List Str)) (pr : PullRequest) (patch : Str)
  | PushToBaseRepo (pr : PullRequest)
  deriving DecidableEq, Repr

/-- The calls that write to a store. -/
def Event.isMutation : Event → Bool
  | .NewPullRequest .. => true
  | .PushToBaseRepo .. => true
  | _ => false

/-- The external collaborators: package `models` (metadata store), package
`git` (version-control provider) and `setting`. -/
structure Env where
  GetUserByName : Str → Except GoError User
  /-- The forked repository when `has` is true, `none` when it is false. -/
  HasForkedRepo : Int → Int → Except GoError (Option Repository)
  RepoPath : Str → Str → Str
  OpenRepository : Str → Except GoError GitRepository
  IsBranchExist : GitRepository → Str → Bool
  IsWriterOfRepo : User → Repository → Bool
  GetPullRequestInfo : GitRepository → Str → Str → Str → Except GoError PullRequestInfo
  GetBranchCommitID : GitRepository → Str → Except GoError Str
  GetPatch : GitRepository → Str → Str → Except GoError Str
  /-- The pair `(pr, err)` as Go returns it. -/
  GetUnmergedPullRequest : Int → Int → Str → Str → Option PullRequest × Option GoError
  GetLabelsByRepoID : Int → Except GoError (List Label)
  GetMilestones : Int → Int → Bool → Except GoError Unit
  GetAssignees : Repository → Except GoError Unit
  GetMilestoneByID : Repository → Int → Except GoError Unit
  GetAssigneeByID : Repository → Int → Except GoError Unit
  NextIssueIndex : Repository → Int
  /-- On success the store assigns the issue its `ID`, which is returned. -/
  NewPullRequest : Repository → Issue → List Int → Option (List Str) → PullRequest → Str →
    Except GoError Int
  PushToBaseRepo : PullRequest → Except GoError Unit
  AttachmentEnabled : Bool

/-- What git guarantees of every store: a reference name that ends in a dot
is refused (`git check-ref-format`), so `IsBranchExist`, which asks git for
`refs/heads/<name>`, finds no branch of such a name. -/
def Env.RefNamesChecked (env : Env) : Prop :=
  ∀ g branch, env.IsBranchExist g branch = true → branch.getLast? ≠ some '.'

/-- The request context `*context.APIContext`: what the router put there
(first seven fields) and what the handler changes. -/
structure Context where
  /-- `c.Params(":compareInfo")` -/
  compareInfo : Str
  /-- `c.User`, the acting principal -/
  User : Gogs.User
  /-- `c.Repo.Repository`, the base repository -/
  Repository : Gogs.Repository
  /-- `c.Repo.Owner`, a pointer -/
  Owner : Option Gogs.User
  /-- `c.Repo.GitRepo` -/
  GitRepo : GitRepository
  /-- `c.Repo.IsWriter()` -/
  IsWriter : Bool
  /-- whether `c.Error` also sets what `c.HasError()` reads: package
  `pkg/context` is not among the sources and neither the specification nor
  the handler says which, so both are covered -/
  errorSetsHasError : Bool
  /-- `c.Repo.PullRequest.SameRepo` -/
  SameRepo : Bool
  /-- the responses written, oldest first -/
  responses : List Response
  /-- what `c.HasError()` reads -/
  hasError : Bool
  /-- the calls made to the stores, oldest first -/
  trace : List Event
  deriving DecidableEq

/-- Record a call to a store. -/
def Context.call (c : Context) (e : Event) : Context :=
  { c with trace := c.trace ++ [e] }

/-- Modelled from the spec: `APIContext.Error` (package `pkg/context` is not
among the sources).  It answers the client with `status`.  Whether the
context then counts as carrying an error for `HasError` is left open
(`errorSetsHasError`). -/
def Context.Error (c : Context) (status : Nat) (title : Str) : Context :=
  { c with
    responses := c.responses ++ [.Error status title]
    hasError := c.hasError || c.errorSetsHasError }

/-- `c.JSON(status, info)`: answers the client. -/
def Context.JSON (c : Context) (status : Nat) (info : pullRequestInfo) : Context :=
  { c with responses := c.responses ++ [.JSON status info] }

/-- Modelled from the spec: `Context.HasError` (package `pkg/context` is not
among the sources): whether the "validation context carries an unresolved
error". -/
def Context.HasError (c : Context) : Bool := c.hasError

/-- `c.Written()`: whether a response has been written. -/
def Context.Written (c : Context) : Bool := !c.responses.isEmpty

/-- The context of a request the handler has not yet touched, with an `Error`
that leaves alone what `HasError` reads. -/
def Context.fresh (compareInfo : Str) (user : Gogs.User) (repo : Gogs.Repository)
    (owner : Option Gogs.User)
    (gitRepo : GitRepository) (isWriter : Bool) : Context :=
  { compareInfo := compareInfo, User := user, Repository := repo, Owner := owner,
    GitRepo := gitRepo, IsWriter := isWriter, errorSetsHasError := false, SameRepo := false,
    responses := [], hasError := false, trace := [] }

/-! ## `ParseCompareInfo` -/

/-- The six values `ParseCompareInfo` returns; a `nil` pointer is `none`. -/
structure CompareInfo where
  headUser : Option User
  headRepo : Option Repository
  headGitRepo : Option GitRepository
  prInfo : Option PullRequestInfo
  baseBranch : Str
  headBranch : Str
  deriving DecidableEq, Repr

/-- The failure result `nil, nil, nil, nil, "", ""`. -/
def CompareInfo.empty : CompareInfo :=
  { headUser := none, headRepo := none, headGitRepo := none, prInfo := none,
    baseBranch := [], headBranch := [] }

/-- What lines 16-93 of `ParseCompareInfo` establish: the branch names, the
head owner and the head repository with its opened git store. -/
structure HeadInfo where
  headUser : Option User
  headRepo : Repository
  headGitRepo : GitRepository
  baseBranch : Str
  headBranch : Str
  deriving DecidableEq, Repr

/-- Lines 59-93 of `ParseCompareInfo`: the `SameRepo` flag is stored in the
context, the base branch is checked and the head repository is found: the
fork of the base repository owned by `headUser`, or the base repository
itself.  `headUser` is dereferenced only when `isSameRepo` is false, where it
comes from `GetUserByName` and is not `nil`. -/
def ParseCompareInfo.findHead (env : Env) (c : Context) (baseBranch : Str)
    (headUser : Option User) (headBranch : Str) (isSameRepo : Bool) :
    Option HeadInfo × Context :=
  let baseRepo := c.Repository
  let c := { c with SameRepo := isSameRepo }
  let c := c.call (.IsBranchExist c.GitRepo baseBranch)
  if !env.IsBranchExist c.GitRepo baseBranch then (none, c)
  else if !isSameRepo then
    match headUser with
    | none => (none, c)
    | some hu =>
      let c := c.call (.HasForkedRepo hu.ID baseRepo.ID)
      match env.HasForkedRepo hu.ID baseRepo.ID with
      | .error _ => (none, c)
      | .ok none => (none, c)
      | .ok (some headRepo) =>
        let path := env.RepoPath hu.Name headRepo.Name
        let c := c.call (.OpenRepository path)
        match env.OpenRepository path with
        | .error _ => (none, c)
        | .ok headGitRepo =>
          (some { headUser := headUser, headRepo := headRepo, headGitRepo := headGitRepo,
                  baseBranch := baseBranch, headBranch := headBranch }, c)
  else
    (some { headUser := headUser, headRepo := c.Repository, headGitRepo := c.GitRepo,
            baseBranch := baseBranch, headBranch := headBranch }, c)

/-- Lines 16-93 of `ParseCompareInfo`: the compare string `<base
branch>...[<head owner>:]<head branch>` is split and the head repository is
resolved; `none` where the source returns `nil, nil, nil, nil, "", ""`. -/
def ParseCompareInfo.resolveHead (env : Env) (c : Context) : Option HeadInfo × Context :=
  let baseRepo := c.Repository
  match Split c.compareInfo "...".toList with
  | [baseBranch, head] =>
    match Split head ":".toList with
    | [headBranch] =>
      ParseCompareInfo.findHead env c baseBranch c.Owner headBranch true
    | [name, headBranch] =>
      let c := c.call (.GetUserByName name)
      match env.GetUserByName name with
      | .error _ => (none, c)
      | .ok headUser =>
        ParseCompareInfo.findHead env c baseBranch (some headUser) headBranch
          (headUser.ID == baseRepo.OwnerID)
    | _ => (none, c)
  | _ => (none, c)

/-- Lines 95-115 of `ParseCompareInfo`: the access check on the head
repository, the head-branch check and the merge-base query. -/
def ParseCompareInfo.checkHead (env : Env) (c : Context) (h : HeadInfo) :
    CompareInfo × Context :=
  let baseRepo := c.Repository
  let c := c.call (.IsWriterOfRepo c.User h.headRepo)
  if !env.IsWriterOfRepo c.User h.headRepo && !c.User.IsAdmin then (.empty, c)
  else
    let c := c.call (.IsBranchExist h.headGitRepo h.headBranch)
    if !env.IsBranchExist h.headGitRepo h.headBranch then (.empty, c)
    else
      let basePath := env.RepoPath baseRepo.OwnerName baseRepo.Name
      let c := c.call (.GetPullRequestInfo h.headGitRepo basePath h.baseBranch h.headBranch)
      match env.GetPullRequestInfo h.headGitRepo basePath h.baseBranch h.headBranch with
      | .error _ => (.empty, c)
      | .ok prInfo =>
        ({ headUser := h.headUser, headRepo := some h.headRepo,
           headGitRepo := some h.headGitRepo, prInfo := some prInfo,
           baseBranch := h.baseBranch, headBranch := h.headBranch }, c)

/-- `ParseCompareInfo(c)`: returns the six results and the context as the
call leaves it. -/
def ParseCompareInfo (env : Env) (c : Context) : CompareInfo × Context :=
  match ParseCompareInfo.resolveHead env c with
  | (none, c) => (.empty, c)
  | (some h, c) => ParseCompareInfo.checkHead env c h

/-! ## Metadata -/

/-- The value of a decimal digit. -/
def digitVal (ch : Char) : Option Nat :=
  if '0' ≤ ch ∧ ch ≤ '9' then some (ch.toNat - '0'.toNat) else none

/-- The number written by a string of decimal digits, most significant
first, continuing from `acc`. -/
def parseDigits : Str → Nat → Option Nat
  | [], acc => some acc
  | ch :: s, acc =>
    match digitVal ch with
    | none => none
    | some d => parseDigits s (10 * acc + d)

/-- The 64-bit integer a label token writes in base 10 (an optional sign and
at least one digit), `none` for a malformed token. -/
def ParseInt64 : Str → Option Int
  | [] => none
  | '-' :: s =>
    if s = [] then none
    else (parseDigits s 0).bind fun n => if n ≤ 2 ^ 63 then some (-(n : Int)) else none
  | '+' :: s =>
    if s = [] then none
    else (parseDigits s 0).bind fun n => if n < 2 ^ 63 then some (n : Int) else none
  | s => (parseDigits s 0).bind fun n => if n < 2 ^ 63 then some (n : Int) else none

/-- Add an identifier to those seen so far unless it is among them. -/
def appendNew (seen : List Int) (i : Int) : List Int :=
  if i ∈ seen then seen else seen ++ [i]

/-- Modelled from the spec: `tool.StringsToInt64s` (package `pkg/tool` is not
among the sources): "Parse label tokens to integers, ignore conversion errors
silently for malformed tokens (treated as absent), deduplicate".  The first
occurrence of an identifier is kept. -/
def StringsToInt64s (strs : List Str) : List Int :=
  (strs.filterMap ParseInt64).foldl appendNew []

/-- Modelled from the spec: `tool.Int64sToMap` (package `pkg/tool` is not
among the sources): the set of the given identifiers, as a lookup. -/
def Int64sToMap (ints : List Int) : Int → Bool :=
  fun i => decide (i ∈ ints)

/-- `RetrieveRepoMilestonesAndAssignees(c, repo)`. -/
def RetrieveRepoMilestonesAndAssignees (env : Env) (c : Context) (repo : Repository) :
    Context :=
  let c := c.call (.GetMilestones repo.ID (-1) false)
  match env.GetMilestones repo.ID (-1) false with
  | .error _ => c.Error 500 "GetMilestones".toList
  | .ok _ =>
    let c := c.call (.GetMilestones repo.ID (-1) true)
    match env.GetMilestones repo.ID (-1) true with
    | .error _ => c.Error 500 "GetMilestones".toList
    | .ok _ =>
      let c := c.call (.GetAssignees repo)
      match env.GetAssignees repo with
      | .error _ => c.Error 500 "GetAssignees".toList
      | .ok _ => c

/-- `RetrieveRepoMetas(c, repo)`: the labels of the repository, `nil` (here
`[]`) for a non-writer or after an error. -/
def RetrieveRepoMetas (env : Env) (c : Context) (repo : Repository) :
    List Label × Context :=
  if !c.IsWriter then ([], c)
  else
    let c := c.call (.GetLabelsByRepoID repo.ID)
    match env.GetLabelsByRepoID repo.ID with
    | .error _ => ([], c.Error 500 "GetLabelsByRepoID".toList)
    | .ok labels =>
      let c := RetrieveRepoMilestonesAndAssignees env c repo
      if c.Written then ([], c) else (labels, c)

/-- The three values `ValidateRepoMetas` returns and the context as the call
leaves it; `checked` are the repository's labels as the marking loop leaves
them (local to the function in the source). -/
structure RepoMetas where
  labelIDs : List Int
  milestoneID : Int
  assigneeID : Int
  checked : List Label
  ctx : Context

/-- `ValidateRepoMetas(c, f)`. -/
def ValidateRepoMetas (env : Env) (c : Context) (f : CreateIssueOption) : RepoMetas :=
  let repo := c.Repository
  let (labels, c) := RetrieveRepoMetas env c c.Repository
  if !c.IsWriter then
    { labelIDs := [], milestoneID := 0, assigneeID := 0, checked := labels, ctx := c }
  else
    -- Check labels.
    let labelIDs := StringsToInt64s (Split f.LabelIDs ",".toList)
    let labelIDMark := Int64sToMap labelIDs
    let labels := labels.map fun l =>
      if labelIDMark l.ID then { l with IsChecked := true } else l
    -- Check milestone.
    let milestoneID := f.Milestone
    let failed (c : Context) : RepoMetas :=
      { labelIDs := [], milestoneID := 0, assigneeID := 0, checked := labels, ctx := c }
    let checkAssignee (c : Context) : RepoMetas :=
      let assigneeID := f.AssigneeID
      if assigneeID > 0 then
        let c := c.call (.GetAssigneeByID repo assigneeID)
        match env.GetAssigneeByID repo assigneeID with
        | .error _ => failed (c.Error 500 "Failed to get assignee by ID: %+v".toList)
        | .ok _ =>
          { labelIDs := labelIDs, milestoneID := milestoneID, assigneeID := assigneeID,
            checked := labels, ctx := c }
      else
        { labelIDs := labelIDs, milestoneID := milestoneID, assigneeID := assigneeID,
          checked := labels, ctx := c }
    if milestoneID > 0 then
      let c := c.call (.GetMilestoneByID repo milestoneID)
      match env.GetMilestoneByID repo milestoneID with
      | .error _ => failed (c.Error 500 "Failed to get milestone by ID: %+v".toList)
      | .ok _ => checkAssignee c
    else checkAssignee c

/-! ## `PrepareCompareDiff` -/

/-- `PrepareCompareDiff(...)`: whether there is nothing to compare, i.e. the
head branch's commit is the merge base.  Only `headGitRepo`, `prInfo` and
`headBranch` are read. -/
def PrepareCompareDiff (env : Env) (c : Context) (_headUser : User) (_headRepo : Repository)
    (headGitRepo : GitRepository) (prInfo : PullRequestInfo) (_baseBranch headBranch : Str) :
    Bool × Context :=
  let c := c.call (.GetBranchCommitID headGitRepo headBranch)
  match env.GetBranchCommitID headGitRepo headBranch with
  | .error _ => (false, c)
  | .ok headCommitID =>
    if headCommitID = prInfo.MergeBase then (true, c) else (false, c)

/-! ## `CreatePullRequest` -/

/-- Lines 278-288 of `CreatePullRequest`: the issue handed to the store. -/
def CreatePullRequest.pullIssue (env : Env) (c : Context) (form : CreateIssueOption)
    (milestoneID assigneeID : Int) : Issue :=
  { ID := 0
    RepoID := c.Repository.ID
    Index := env.NextIssueIndex c.Repository
    Title := form.Title
    PosterID := c.User.ID
    Poster := c.User
    MilestoneID := milestoneID
    AssigneeID := assigneeID
    IsPull := true
    Content := form.Body }

/-- Lines 290-300 of `CreatePullRequest`: the pull request handed to the
store. -/
def CreatePullRequest.pullRequest (c : Context) (headUser : User) (headRepo : Repository)
    (prInfo : PullRequestInfo) (baseBranch headBranch : Str) : PullRequest :=
  { PRType := .PULL_REQUEST_GOGS
    IssueID := 0
    Index := 0
    HeadRepoID := headRepo.ID
    BaseRepoID := c.Repository.ID
    HeadUserName := headUser.Name
    HeadBranch := headBranch
    BaseBranch := baseBranch
    HeadRepo := some headRepo
    BaseRepo := some c.Repository
    MergeBase := prInfo.MergeBase }

/-- Lines 255-313 of `CreatePullRequest`: the diff check, the metadata, the
patch and the creation of the records. -/
def CreatePullRequest.create (env : Env) (c : Context) (form : CreateIssueOption)
    (headUser : User) (headRepo : Repository) (headGitRepo : GitRepository)
    (prInfo : PullRequestInfo) (baseBranch headBranch : Str) : Context :=
  let repo := c.Repository
  let (nothingToCompare, c) :=
    PrepareCompareDiff env c headUser headRepo headGitRepo prInfo baseBranch headBranch
  if nothingToCompare then c.Error 412 "Nothing to compare".toList
  else
    let metas := ValidateRepoMetas env c form
    let c := metas.ctx
    let attachments : Option (List Str) := if env.AttachmentEnabled then some [] else none
    if c.HasError then c.Error 412 "Context has error".toList
    else
      let c := c.call (.GetPatch headGitRepo prInfo.MergeBase headBranch)
      match env.GetPatch headGitRepo prInfo.MergeBase headBranch with
      | .error _ => c.Error 500 "GetPatch".toList
      | .ok patch =>
        let pullIssue := CreatePullRequest.pullIssue env c form metas.milestoneID metas.assigneeID
        let pullRequest :=
          CreatePullRequest.pullRequest c headUser headRepo prInfo baseBranch headBranch
        let c := c.call
          (.NewPullRequest repo pullIssue metas.labelIDs attachments pullRequest patch)
        match env.NewPullRequest repo pullIssue metas.labelIDs attachments pullRequest patch with
        | .error _ => c.Error 500 "NewPullRequest".toList
        | .ok issueID =>
          let c := c.call (.PushToBaseRepo pullRequest)
          match env.PushToBaseRepo pullRequest with
          | .error _ => c.Error 500 "PUshToBaseRepo".toList
          | .ok _ => c.JSON 201 { IssueID := issueID, Index := pullIssue.Index }

/-- `CreatePullRequest(c, form)`: returns the context as the handler leaves
it, with the responses written and the calls made. -/
def CreatePullRequest (env : Env) (c : Context) (form : CreateIssueOption) : Context :=
  let (info, c) := ParseCompareInfo env c
  match info.headUser, info.headRepo, info.headGitRepo, info.prInfo with
  | some headUser, some headRepo, some headGitRepo, some prInfo =>
    let baseBranch := info.baseBranch
    let headBranch := info.headBranch
    if baseBranch = [] ∨ headBranch = [] then
      c.Error 400 "Failed to parse compare info".toList
    else
      let c := c.call
        (.GetUnmergedPullRequest headRepo.ID c.Repository.ID headBranch baseBranch)
      match env.GetUnmergedPullRequest headRepo.ID c.Repository.ID headBranch baseBranch with
      | (_, some err) =>
        if err ≠ .PullRequestNotExist then c.Error 500 "GetUnmergedPullRequest".toList
        else
          CreatePullRequest.create env c form headUser headRepo headGitRepo prInfo baseBranch
            headBranch
      | (some pr, none) => c.JSON 409 { IssueID := pr.IssueID, Index := pr.Index }
      | (none, none) =>
        CreatePullRequest.create env c form headUser headRepo headGitRepo prInfo baseBranch
          headBranch
  | _, _, _, _ => c.Error 400 "Failed to parse compare info".toList

/-! ## A sample installation

Alice owns the repository `alice/proj`; Bob owns a fork of it, `bob/proj`.
Everybody writes to his own repositories only.  The theorems below are
instantiated on it. -/

/-- The owner of the base repository. -/
def alice : User := { ID := 10, Name := "alice".toList, IsAdmin := false }

/-- The owner of the fork. -/
def bob : User := { ID := 20, Name := "bob".toList, IsAdmin := false }

/-- The base repository `alice/proj`. -/
def baseRepo : Repository :=
  { ID := 1, OwnerID := 10, OwnerName := "alice".toList, Name := "proj".toList }

/-- Bob's fork `bob/proj`. -/
def forkRepo : Repository :=
  { ID := 2, OwnerID := 20, OwnerName := "bob".toList, Name := "proj".toList }

/-- The git store of the base repository. -/
def baseGit : GitRepository := { Path := "alice/proj".toList }

/-- The git store of the fork. -/
def forkGit : GitRepository := { Path := "bob/proj".toList }

/-- The unmerged pull request the sample store holds for the branch `dup`. -/
def openPull : PullRequest :=
  { PRType := .PULL_REQUEST_GOGS, IssueID := 31, Index := 5, HeadRepoID := 2, BaseRepoID := 1,
    HeadUserName := "bob".toList, HeadBranch := "dup".toList, BaseBranch := "master".toList,
    HeadRepo := none, BaseRepo := none, MergeBase := "c0".toList }

/-- The stores of the sample installation.  Both git stores have the
branches `master`, `feature`, `stale` and `dup`; the merge base is always the
commit `c0`, which is also the tip of `stale`; milestone 1 and assignee 10
exist in every repository. -/
def sampleEnv : Env where
  GetUserByName name :=
    if name = "alice".toList then .ok alice
    else if name = "bob".toList then .ok bob
    else .error (.Other "user does not exist".toList)
  HasForkedRepo userID repoID :=
    if userID = 20 ∧ repoID = 1 then .ok (some forkRepo) else .ok none
  RepoPath userName repoName := userName ++ "/".toList ++ repoName
  OpenRepository path := .ok { Path := path }
  IsBranchExist _ branch :=
    decide (branch ∈ ["master".toList, "feature".toList, "stale".toList, "dup".toList])
  IsWriterOfRepo u repo := decide (u.ID = repo.OwnerID)
  GetPullRequestInfo _ _ _ _ := .ok { MergeBase := "c0".toList }
  GetBranchCommitID _ branch :=
    if branch = "stale".toList then .ok "c0".toList else .ok "c1".toList
  GetPatch _ _ _ := .ok "diff".toList
  GetUnmergedPullRequest _ _ headBranch _ :=
    if headBranch = "dup".toList then (some openPull, none)
    else (none, some .PullRequestNotExist)
  GetLabelsByRepoID _ := .ok [{ ID := 1, IsChecked := false }, { ID := 2, IsChecked := false }]
  GetMilestones _ _ _ := .ok ()
  GetAssignees _ := .ok ()
  GetMilestoneByID _ id :=
    if id = 1 then .ok () else .error (.Other "milestone does not exist".toList)
  GetAssigneeByID _ id :=
    if id = 10 then .ok () else .error (.Other "assignee does not exist".toList)
  NextIssueIndex _ := 7
  NewPullRequest _ _ _ _ _ _ := .ok 42
  PushToBaseRepo _ := .ok ()
  AttachmentEnabled := true

/-- A request on the base repository `alice/proj` by `user`, not yet handled. -/
def request (compareInfo : Str) (user : User) : Context :=
  Context.fresh compareInfo user baseRepo (some alice) baseGit (decide (user.ID = 10))

/-- A form with a title and a body only. -/
def plainForm : CreateIssueOption :=
  { Title := "t".toList, Body := "b".toList, LabelIDs := [], Milestone := 0, AssigneeID := 0 }


/-- A form asking for milestone 9, which no repository of the sample
installation has. -/
def milestoneForm : CreateIssueOption := { plainForm with Milestone := 9 }

/-- A form naming the labels 2 and 1. -/
def labelsForm : CreateIssueOption := { plainForm with LabelIDs := "2,1".toList }

/-! ## Relations between the context before and after a call -/

/-- The context `c'` differs from `c` by calls that do not write to a store
and by the `SameRepo` flag only. -/
def Context.ReadsOnly (c c' : Context) : Prop :=
  ∃ sr evs, c' = { c with SameRepo := sr, trace := c.trace ++ evs } ∧
    ∀ e ∈ evs, e.isMutation = false

/-- The context `c'` differs from `c` by calls that do not write to a store,
by responses written and by the `SameRepo` flag only. -/
def Context.Reads (c c' : Context) : Prop :=
  ∃ sr rs he evs,
    c' = { c with SameRepo := sr, responses := rs, hasError := he, trace := c.trace ++ evs } ∧
    ∀ e ∈ evs, e.isMutation = false

/-- The trace of `c'` continues the trace of `c`. -/
def Context.Grows (c c' : Context) : Prop :=
  ∃ evs, c'.trace = c.trace ++ evs

/-! ## `strings.Split` on well-formed compare strings -/

theorem Index_of_isPrefixOf (sep s : Str) (h : sep.isPrefixOf s = true) : Index sep s = some 0 := by
  cases s with
  | nil => simp [Index, h]
  | cons c s => simp [Index, h]

theorem Index_none_of_not_contains (sep : Str) : ∀ s : Str, ¬ sep <:+: s → Index sep s = none
  | [], h => by
    have : sep.isPrefixOf [] = false := by
      cases sep with
      | nil => exact absurd List.nil_infix h
      | cons a t => rfl
    simp [Index, this]
  | c :: s, h => by
    have h1 : sep.isPrefixOf (c :: s) = false := by
      rcases hp : sep.isPrefixOf (c :: s) with _ | _
      · rfl
      · exact absurd (List.IsPrefix.isInfix (List.isPrefixOf_iff_prefix.mp hp)) h
    have h2 : ¬ sep <:+: s := fun hi => h (hi.trans (List.infix_cons (List.infix_refl s)))
    simp [Index, h1, Index_none_of_not_contains sep s h2]

theorem Index_append (sep rest : Str) : ∀ b : Str,
    (∀ j, j < b.length → sep.isPrefixOf (b.drop j ++ (sep ++ rest)) = false) →
    Index sep (b ++ (sep ++ rest)) = some b.length
  | [], _ => by
    simpa using Index_of_isPrefixOf sep (sep ++ rest) (by simp)
  | c :: b, h => by
    have h0 := h 0 (by simp)
    have ih := Index_append sep rest b (fun j hj => by
      have := h (j + 1) (by simpa using hj)
      simpa using this)
    simp only [List.drop_zero, List.cons_append] at h0
    simp [Index, h0, ih]

theorem splitLoop_of_Index_none (sep s : Str) (n : Nat) (h : Index sep s = none) :
    splitLoop sep n s = [s] := by
  cases n <;> simp [splitLoop, h]

theorem Split_two (sep b h : Str) (hsep : sep ≠ [])
    (hb : ∀ j, j < b.length → sep.isPrefixOf (b.drop j ++ (sep ++ h)) = false)
    (hh : Index sep h = none) : Split (b ++ (sep ++ h)) sep = [b, h] := by
  have hlen : (b ++ (sep ++ h)).length = (b.length + h.length + (sep.length - 1)) + 1 := by
    have : 0 < sep.length := List.length_pos.mpr hsep
    simp only [List.length_append]; omega
  unfold Split
  rw [if_neg hsep, hlen]
  simp only [splitLoop, Index_append sep h b hb]
  simp [splitLoop_of_Index_none, hh]

/-! ## The context across calls -/

theorem Context.ReadsOnly.ro_refl (c : Context) : c.ReadsOnly c :=
  ⟨c.SameRepo, [], by simp, by simp⟩

theorem Context.ReadsOnly.ro_trans {a b c : Context} (h1 : a.ReadsOnly b) (h2 : b.ReadsOnly c) :
    a.ReadsOnly c := by
  obtain ⟨s1, e1, rfl, m1⟩ := h1
  obtain ⟨s2, e2, rfl, m2⟩ := h2
  refine ⟨s2, e1 ++ e2, by simp, ?_⟩
  intro e he
  rcases List.mem_append.mp he with h | h
  · exact m1 e h
  · exact m2 e h

theorem Context.ReadsOnly.ro_call (c : Context) (e : Event) (h : e.isMutation = false) :
    c.ReadsOnly (c.call e) :=
  ⟨c.SameRepo, [e], by simp [Context.call], by simpa using h⟩

theorem Context.ReadsOnly.ro_setSameRepo (c : Context) (b : Bool) :
    c.ReadsOnly { c with SameRepo := b } :=
  ⟨b, [], by simp, by simp⟩

theorem Context.ReadsOnly.ro_reads {a b : Context} (h : a.ReadsOnly b) : a.Reads b := by
  obtain ⟨s, e, rfl, m⟩ := h
  exact ⟨s, a.responses, a.hasError, e, rfl, m⟩

theorem Context.Reads.rd_refl (c : Context) : c.Reads c := (Context.ReadsOnly.ro_refl c).ro_reads

theorem Context.Reads.rd_trans {a b c : Context} (h1 : a.Reads b) (h2 : b.Reads c) :
    a.Reads c := by
  obtain ⟨s1, r1, x1, e1, rfl, m1⟩ := h1
  obtain ⟨s2, r2, x2, e2, rfl, m2⟩ := h2
  refine ⟨s2, r2, x2, e1 ++ e2, by simp, ?_⟩
  intro e he
  rcases List.mem_append.mp he with h | h
  · exact m1 e h
  · exact m2 e h

theorem Context.Reads.rd_call (c : Context) (e : Event) (h : e.isMutation = false) :
    c.Reads (c.call e) := (Context.ReadsOnly.ro_call c e h).ro_reads

theorem Context.Reads.rd_Error (c : Context) (status : Nat) (title : Str) :
    c.Reads (c.Error status title) :=
  ⟨c.SameRepo, c.responses ++ [.Error status title], c.hasError || c.errorSetsHasError, [],
    by simp [Context.Error], by simp⟩

theorem Context.Reads.rd_JSON (c : Context) (status : Nat) (info : pullRequestInfo) :
    c.Reads (c.JSON status info) :=
  ⟨c.SameRepo, c.responses ++ [.JSON status info], c.hasError, [], by simp [Context.JSON], by simp⟩

theorem Context.Reads.rd_grows {a b : Context} (h : a.Reads b) : a.Grows b := by
  obtain ⟨s, r, x, e, rfl, _⟩ := h
  exact ⟨e, rfl⟩

theorem Context.Grows.gr_refl (c : Context) : c.Grows c := ⟨[], by simp⟩

theorem Context.Grows.gr_trans {a b c : Context} (h1 : a.Grows b) (h2 : b.Grows c) :
    a.Grows c := by
  obtain ⟨e1, h1⟩ := h1
  obtain ⟨e2, h2⟩ := h2
  exact ⟨e1 ++ e2, by rw [h2, h1, List.append_assoc]⟩

theorem Context.Grows.gr_call (c : Context) (e : Event) : c.Grows (c.call e) := ⟨[e], rfl⟩

theorem Context.Grows.gr_Error (c : Context) (status : Nat) (title : Str) :
    c.Grows (c.Error status title) := (Context.Reads.rd_Error c status title).rd_grows

theorem Context.Grows.gr_JSON (c : Context) (status : Nat) (info : pullRequestInfo) :
    c.Grows (c.JSON status info) := (Context.Reads.rd_JSON c status info).rd_grows

theorem dots_eq : "...".toList = ['.', '.', '.'] := rfl

theorem colon_eq : ":".toList = [':'] := rfl

theorem comma_eq : ",".toList = [','] := rfl

/-- In `b ++ "..." ++ rest` the separator does not start inside `b` when `b`
does not contain it and does not end in a dot. -/
theorem dots_not_early (b rest : Str) (hb : ¬ "...".toList <:+: b)
    (hdot : b.getLast? ≠ some '.') (j : Nat) (hj : j < b.length) :
    List.isPrefixOf "...".toList (b.drop j ++ ("...".toList ++ rest)) = false := by
  rw [dots_eq] at hb ⊢
  have hlast : (b.drop j).getLast? = b.getLast? := by
    rw [List.getLast?_drop]; simp [Nat.not_le.mpr hj]
  have hinf : ¬ ['.', '.', '.'] <:+: b.drop j :=
    fun h => hb (h.trans (List.drop_suffix j b).isInfix)
  have hne : b.drop j ≠ [] := by
    intro h
    have := congrArg List.length h
    simp at this; omega
  generalize b.drop j = r at hlast hinf hne
  rw [← hlast] at hdot
  rcases hp : List.isPrefixOf ['.', '.', '.'] (r ++ (['.', '.', '.'] ++ rest)) with _ | _
  · rfl
  · exfalso
    match r, hdot, hinf, hne, hp with
    | [], _, _, hne, _ => exact hne rfl
    | [x], hdot, _, _, hp =>
      simp [List.isPrefixOf] at hp hdot
      exact hdot hp.symm
    | [x, y], hdot, _, _, hp =>
      simp [List.isPrefixOf] at hp hdot
      exact hdot hp.2.symm
    | x :: y :: z :: t, _, hinf, _, hp =>
      simp [List.isPrefixOf] at hp
      obtain ⟨rfl, rfl, rfl⟩ := hp
      exact hinf (List.IsPrefix.isInfix ⟨t, rfl⟩)

/-- In `b ++ ":" ++ rest` the colon of the separator is the first one when
`b` has none. -/
theorem colon_not_early (b rest : Str) (hb : ':' ∉ b) (j : Nat) (hj : j < b.length) :
    List.isPrefixOf ":".toList (b.drop j ++ (":".toList ++ rest)) = false := by
  rw [colon_eq]
  have hmem : ∀ x ∈ b.drop j, x ≠ ':' := fun x hx h => hb (h ▸ List.mem_of_mem_drop hx)
  have hne : b.drop j ≠ [] := by
    intro h
    have := congrArg List.length h
    simp at this; omega
  generalize b.drop j = r at hmem hne
  match r, hmem, hne with
  | [], _, hne => exact absurd rfl hne
  | x :: t, hmem, _ =>
    have := hmem x (by simp)
    simp [List.isPrefixOf, Ne.symm this]

theorem Index_none_of_not_mem (ch : Char) (s : Str) (h : ch ∉ s) : Index [ch] s = none :=
  Index_none_of_not_contains [ch] s (fun hi => h (hi.subset (List.mem_singleton_self ch)))

/-- A string `o ++ ":" ++ h` contains `...` only if `o` or `h` does. -/
theorem dots_not_infix_join (o h : Str) (ho : ¬ "...".toList <:+: o)
    (hh : ¬ "...".toList <:+: h) : ¬ "...".toList <:+: o ++ (":".toList ++ h) := by
  rw [dots_eq] at *
  rw [colon_eq]
  induction o with
  | nil =>
    intro hi
    simp only [List.nil_append, List.singleton_append] at hi
    rcases List.infix_cons_iff.mp hi with hp | hi'
    · obtain ⟨t, ht⟩ := hp
      simp at ht
    · exact hh hi'
  | cons x o ih =>
    intro hi
    simp only [List.cons_append] at hi
    rcases List.infix_cons_iff.mp hi with hp | hi'
    · obtain ⟨t, ht⟩ := hp
      simp only [List.cons_append, List.cons.injEq] at ht
      obtain ⟨rfl, ht⟩ := ht
      match o, ho, ht with
      | [], _, ht => simp at ht
      | [y], _, ht => simp at ht
      | y :: z :: o', ho, ht =>
        simp only [List.cons_append, List.cons.injEq, List.nil_append] at ht
        obtain ⟨rfl, rfl, _⟩ := ht
        exact ho (List.IsPrefix.isInfix ⟨o', rfl⟩)
    · exact ih (fun h' => ho (h'.trans (List.infix_cons (List.infix_refl o)))) hi'

theorem Split_of_Index_none (sep s : Str) (hsep : sep ≠ []) (h : Index sep s = none) :
    Split s sep = [s] := by
  unfold Split
  rw [if_neg hsep, splitLoop_of_Index_none sep s _ h]

/-- A compare string `b...rest` splits into `b` and `rest`. -/
theorem Split_dots (b rest : Str) (hb : ¬ "...".toList <:+: b) (hdot : b.getLast? ≠ some '.')
    (hrest : ¬ "...".toList <:+: rest) :
    Split (b ++ "...".toList ++ rest) "...".toList = [b, rest] := by
  rw [List.append_assoc]
  exact Split_two _ b rest (by decide) (dots_not_early b rest hb hdot)
    (Index_none_of_not_contains _ rest hrest)

/-- A head segment without a colon is the head branch. -/
theorem Split_colon_plain (h : Str) (hh : ':' ∉ h) : Split h ":".toList = [h] :=
  Split_of_Index_none _ h (by decide) (Index_none_of_not_mem ':' h hh)

/-- A head segment `owner:h` splits into the owner and the head branch. -/
theorem Split_colon_owner (o h : Str) (ho : ':' ∉ o) (hh : ':' ∉ h) :
    Split (o ++ ":".toList ++ h) ":".toList = [o, h] := by
  rw [List.append_assoc]
  exact Split_two _ o h (by decide) (colon_not_early o h ho) (Index_none_of_not_mem ':' h hh)

theorem findHead_readsOnly (env : Env) (c : Context) (bb : Str) (hu : Option User) (hb : Str)
    (sr : Bool) : c.ReadsOnly (ParseCompareInfo.findHead env c bb hu hb sr).2 := by
  have h0 : c.ReadsOnly ({ c with SameRepo := sr }.call (.IsBranchExist c.GitRepo bb)) :=
    (Context.ReadsOnly.ro_setSameRepo c sr).ro_trans (Context.ReadsOnly.ro_call _ _ rfl)
  unfold ParseCompareInfo.findHead
  simp only []
  split
  · exact h0
  · split
    · split
      · exact h0
      · rename_i u
        have h1 := h0.ro_trans (Context.ReadsOnly.ro_call _ (.HasForkedRepo u.ID c.Repository.ID) rfl)
        split
        · exact h1
        · exact h1
        · rename_i headRepo _
          have h2 := h1.ro_trans
            (Context.ReadsOnly.ro_call _ (.OpenRepository (env.RepoPath u.Name headRepo.Name)) rfl)
          split
          · exact h2
          · exact h2
    · exact h0

theorem resolveHead_readsOnly (env : Env) (c : Context) :
    c.ReadsOnly (ParseCompareInfo.resolveHead env c).2 := by
  unfold ParseCompareInfo.resolveHead
  simp only []
  split
  · split
    · exact findHead_readsOnly ..
    · rename_i name _ _
      have h1 := Context.ReadsOnly.ro_call c (.GetUserByName name) rfl
      split
      · exact h1
      · exact h1.ro_trans (findHead_readsOnly ..)
    · exact Context.ReadsOnly.ro_refl c
  · exact Context.ReadsOnly.ro_refl c

theorem checkHead_readsOnly (env : Env) (c : Context) (h : HeadInfo) :
    c.ReadsOnly (ParseCompareInfo.checkHead env c h).2 := by
  have h1 := Context.ReadsOnly.ro_call c (.IsWriterOfRepo c.User h.headRepo) rfl
  have h2 := h1.ro_trans (Context.ReadsOnly.ro_call _ (.IsBranchExist h.headGitRepo h.headBranch) rfl)
  have h3 := h2.ro_trans (Context.ReadsOnly.ro_call _ (.GetPullRequestInfo h.headGitRepo
    (env.RepoPath c.Repository.OwnerName c.Repository.Name) h.baseBranch h.headBranch) rfl)
  unfold ParseCompareInfo.checkHead
  simp only []
  split
  · exact h1
  · split
    · exact h2
    · split
      · exact h3
      · exact h3

theorem ParseCompareInfo_readsOnly (env : Env) (c : Context) :
    c.ReadsOnly (ParseCompareInfo env c).2 := by
  have h1 := resolveHead_readsOnly env c
  unfold ParseCompareInfo
  split
  · rename_i c1 heq
    rw [heq] at h1
    exact h1
  · rename_i hd c1 heq
    rw [heq] at h1
    exact h1.ro_trans (checkHead_readsOnly env c1 hd)

/-- A result of `checkHead` that names a head repository passed the access
check on it, and the check was the first call made. -/
theorem checkHead_headRepo (env : Env) (c : Context) (h : HeadInfo) (H : Repository)
    (hH : (ParseCompareInfo.checkHead env c h).1.headRepo = some H) :
    H = h.headRepo ∧
    (env.IsWriterOfRepo c.User H = true ∨ c.User.IsAdmin = true) ∧
    ∃ evs, (ParseCompareInfo.checkHead env c h).2.trace =
      c.trace ++ Event.IsWriterOfRepo c.User H :: evs := by
  unfold ParseCompareInfo.checkHead at hH ⊢
  simp only [] at hH ⊢
  split at hH
  · simp [CompareInfo.empty] at hH
  · rename_i hacc
    rw [if_neg hacc]
    split at hH
    · simp [CompareInfo.empty] at hH
    · rename_i hbr
      rw [if_neg hbr]
      split at hH
      · simp [CompareInfo.empty] at hH
      · rename_i pi hpi
        simp only [Option.some.injEq] at hH
        subst hH
        refine ⟨rfl, ?_, ?_⟩
        · simp only [Context.call, Bool.and_eq_true, Bool.not_eq_true', not_and,
            Bool.not_eq_false] at hacc
          by_cases hw : env.IsWriterOfRepo c.User h.headRepo = true
          · exact Or.inl hw
          · exact Or.inr (hacc (by simpa using hw))
        · exact ⟨_, by simp [Context.call]; rfl⟩

/-- A result of `checkHead` that names no head repository is the empty
result, and no response was written. -/
theorem checkHead_failed (env : Env) (c : Context) (h : HeadInfo)
    (hH : (ParseCompareInfo.checkHead env c h).1.headRepo = none) :
    (ParseCompareInfo.checkHead env c h).1 = CompareInfo.empty := by
  unfold ParseCompareInfo.checkHead at hH ⊢
  simp only [] at hH ⊢
  split at hH
  · rename_i hacc
    rw [if_pos hacc]
  · rename_i hacc
    rw [if_neg hacc]
    split at hH
    · rename_i hbr
      rw [if_pos hbr]
    · rename_i hbr
      rw [if_neg hbr]
      split at hH
      · rfl
      · simp at hH

theorem RetrieveRepoMilestonesAndAssignees_reads (env : Env) (c : Context) (repo : Repository) :
    c.Reads (RetrieveRepoMilestonesAndAssignees env c repo) := by
  have h1 := Context.Reads.rd_call c (.GetMilestones repo.ID (-1) false) rfl
  have h2 := h1.rd_trans (Context.Reads.rd_call _ (.GetMilestones repo.ID (-1) true) rfl)
  have h3 := h2.rd_trans (Context.Reads.rd_call _ (.GetAssignees repo) rfl)
  unfold RetrieveRepoMilestonesAndAssignees
  simp only []
  split
  · exact h1.rd_trans (Context.Reads.rd_Error ..)
  · split
    · exact h2.rd_trans (Context.Reads.rd_Error ..)
    · split
      · exact h3.rd_trans (Context.Reads.rd_Error ..)
      · exact h3

theorem RetrieveRepoMetas_reads (env : Env) (c : Context) (repo : Repository) :
    c.Reads (RetrieveRepoMetas env c repo).2 := by
  have h1 := Context.Reads.rd_call c (.GetLabelsByRepoID repo.ID) rfl
  unfold RetrieveRepoMetas
  simp only []
  split
  · exact Context.Reads.rd_refl c
  · split
    · exact h1.rd_trans (Context.Reads.rd_Error ..)
    · have h2 := h1.rd_trans (RetrieveRepoMilestonesAndAssignees_reads env _ repo)
      split
      · exact h2
      · exact h2

theorem ValidateRepoMetas_reads (env : Env) (c : Context) (f : CreateIssueOption) :
    c.Reads (ValidateRepoMetas env c f).ctx := by
  have h1 := RetrieveRepoMetas_reads env c c.Repository
  unfold ValidateRepoMetas
  simp only []
  generalize RetrieveRepoMetas env c c.Repository = r at h1
  obtain ⟨labels, c1⟩ := r
  simp only [] at h1 ⊢
  split
  · exact h1
  · have h2 := h1.rd_trans (Context.Reads.rd_call c1 (.GetMilestoneByID c.Repository f.Milestone) rfl)
    have h3 := h2.rd_trans (Context.Reads.rd_call _ (.GetAssigneeByID c.Repository f.AssigneeID) rfl)
    have h4 := h1.rd_trans (Context.Reads.rd_call c1 (.GetAssigneeByID c.Repository f.AssigneeID) rfl)
    split
    · split
      · exact h2.rd_trans (Context.Reads.rd_Error ..)
      · split
        · split
          · exact h3.rd_trans (Context.Reads.rd_Error ..)
          · exact h3
        · exact h2
    · split
      · split
        · exact h4.rd_trans (Context.Reads.rd_Error ..)
        · exact h4
      · exact h1

theorem PrepareCompareDiff_reads (env : Env) (c : Context) (hu : User) (hr : Repository)
    (hg : GitRepository) (pi : PullRequestInfo) (bb hb : Str) :
    c.Reads (PrepareCompareDiff env c hu hr hg pi bb hb).2 := by
  have h1 := Context.Reads.rd_call c (.GetBranchCommitID hg hb) rfl
  unfold PrepareCompareDiff
  simp only []
  split
  · exact h1
  · split
    · exact h1
    · exact h1

theorem create_grows (env : Env) (c : Context) (form : CreateIssueOption) (hu : User)
    (hr : Repository) (hg : GitRepository) (pi : PullRequestInfo) (bb hb : Str) :
    c.Grows (CreatePullRequest.create env c form hu hr hg pi bb hb) := by
  have h1 := (PrepareCompareDiff_reads env c hu hr hg pi bb hb).rd_grows
  unfold CreatePullRequest.create
  simp only []
  generalize PrepareCompareDiff env c hu hr hg pi bb hb = r at h1
  obtain ⟨ntc, c1⟩ := r
  simp only [] at h1 ⊢
  split
  · exact h1.gr_trans (Context.Grows.gr_Error ..)
  · have h2 := h1.gr_trans (ValidateRepoMetas_reads env c1 form).rd_grows
    split
    · exact h2.gr_trans (Context.Grows.gr_Error ..)
    · have h3 := h2.gr_trans (Context.Grows.gr_call _ (.GetPatch hg pi.MergeBase hb))
      split
      · exact h3.gr_trans (Context.Grows.gr_Error ..)
      · split
        · exact h3.gr_trans ((Context.Grows.gr_call _ _).gr_trans (Context.Grows.gr_Error ..))
        · split
          · exact h3.gr_trans ((Context.Grows.gr_call _ _).gr_trans
              ((Context.Grows.gr_call _ _).gr_trans (Context.Grows.gr_Error ..)))
          · exact h3.gr_trans ((Context.Grows.gr_call _ _).gr_trans
              ((Context.Grows.gr_call _ _).gr_trans (Context.Grows.gr_JSON ..)))

/-- An incomplete resolution is answered with 400 and nothing else happens. -/
theorem CreatePullRequest_of_empty (env : Env) (c : Context) (form : CreateIssueOption)
    (h : (ParseCompareInfo env c).1 = CompareInfo.empty) :
    CreatePullRequest env c form =
      (ParseCompareInfo env c).2.Error 400 "Failed to parse compare info".toList := by
  unfold CreatePullRequest
  generalize ParseCompareInfo env c = r at h
  obtain ⟨info, c1⟩ := r
  simp only [] at h
  subst h
  rfl

/-- A complete resolution with non-empty branch names goes on to the
duplicate check. -/
theorem CreatePullRequest_of_complete (env : Env) (c c1 : Context) (form : CreateIssueOption)
    (hu : User) (H : Repository) (hg : GitRepository) (pi : PullRequestInfo) (bb hb : Str)
    (hres : ParseCompareInfo env c =
      ({ headUser := some hu, headRepo := some H, headGitRepo := some hg, prInfo := some pi,
         baseBranch := bb, headBranch := hb }, c1))
    (hbb : bb ≠ []) (hhb : hb ≠ []) :
    CreatePullRequest env c form =
      match env.GetUnmergedPullRequest H.ID c.Repository.ID hb bb with
      | (_, some err) =>
        if err ≠ .PullRequestNotExist then
          (c1.call (.GetUnmergedPullRequest H.ID c.Repository.ID hb bb)).Error 500
            "GetUnmergedPullRequest".toList
        else
          CreatePullRequest.create env (c1.call (.GetUnmergedPullRequest H.ID c.Repository.ID hb bb))
            form hu H hg pi bb hb
      | (some pr, none) =>
        (c1.call (.GetUnmergedPullRequest H.ID c.Repository.ID hb bb)).JSON 409
          { IssueID := pr.IssueID, Index := pr.Index }
      | (none, none) =>
        CreatePullRequest.create env (c1.call (.GetUnmergedPullRequest H.ID c.Repository.ID hb bb))
          form hu H hg pi bb hb := by
  have hR : c1.Repository = c.Repository := by
    have := ParseCompareInfo_readsOnly env c
    rw [hres] at this
    obtain ⟨sr, evs, h, _⟩ := this
    simp only [] at h
    rw [h]
  unfold CreatePullRequest
  rw [hres]
  have hR2 : ∀ ev, (c1.call ev).Repository = c.Repository := fun _ => hR
  simp only [hbb, hhb, or_self, if_false, hR, hR2]

/-! ## Claims about `ParseCompareInfo` -/

/-- C2. A compare string that does not split on `...` into exactly two parts
is a malformed spec: whatever the stores hold, `ParseCompareInfo` returns the
empty result `nil, nil, nil, nil, "", ""` without calling a store, and
`CreatePullRequest` answers 400 and does nothing else. -/
theorem ParseCompareInfo_malformed_spec (env : Env) (c : Context) (form : CreateIssueOption)
    (h : (Split c.compareInfo "...".toList).length ≠ 2) :
    ParseCompareInfo env c = (CompareInfo.empty, c) ∧
    CreatePullRequest env c form = c.Error 400 "Failed to parse compare info".toList ∧
    (CreatePullRequest env c form).responses =
      c.responses ++ [.Error 400 "Failed to parse compare info".toList] ∧
    (CreatePullRequest env c form).trace = c.trace := by
  have h1 : ParseCompareInfo.resolveHead env c = (none, c) := by
    unfold ParseCompareInfo.resolveHead
    simp only []
    split
    · rename_i heq
      rw [heq] at h
      simp at h
    · rfl
  have h2 : ParseCompareInfo env c = (CompareInfo.empty, c) := by
    unfold ParseCompareInfo
    rw [h1]
  have h3 := CreatePullRequest_of_empty env c form (by rw [h2])
  rw [h2] at h3
  exact ⟨h2, h3, by rw [h3]; rfl, by rw [h3]; rfl⟩

/-- C2 on the sample installation: the compare string `master` has no
separator. -/
theorem ParseCompareInfo_malformed_spec_witness :
    (Split (request "master".toList alice).compareInfo "...".toList).length ≠ 2 ∧
    (ParseCompareInfo sampleEnv (request "master".toList alice) =
        (CompareInfo.empty, request "master".toList alice) ∧
      CreatePullRequest sampleEnv (request "master".toList alice) plainForm =
        (request "master".toList alice).Error 400 "Failed to parse compare info".toList ∧
      (CreatePullRequest sampleEnv (request "master".toList alice) plainForm).responses =
        (request "master".toList alice).responses ++
          [.Error 400 "Failed to parse compare info".toList] ∧
      (CreatePullRequest sampleEnv (request "master".toList alice) plainForm).trace =
        (request "master".toList alice).trace) :=
  ⟨by decide, ParseCompareInfo_malformed_spec sampleEnv _ plainForm (by decide)⟩

/-- No branch of the sample installation has a name that ends in a dot. -/
theorem sampleEnv_refNamesChecked : sampleEnv.RefNamesChecked := by
  intro g branch h
  simp only [sampleEnv, decide_eq_true_eq, List.mem_cons, List.mem_singleton,
    List.not_mem_nil, or_false] at h
  rcases h with rfl | rfl | rfl | rfl <;> decide

/-- C1. For a compare string `b...h` where `b` and `h` do not contain `...`,
`h` has no colon, both exist as branches of the base repository (in a store
kept by git, which has no branch whose name ends in a dot), the principal
writes to the base repository or is an administrator and the merge-base query
succeeds: resolution succeeds, the `SameRepo` flag is set, the branches
returned are `b` and `h`, the head owner is the base repository's owner, the
head repository and store are the base repository's, and the only calls made
are the two branch checks, the access check and the merge-base query (no user
or fork lookup). -/
theorem ParseCompareInfo_same_repo (env : Env) (c : Context) (b h : Str)
    (pi : PullRequestInfo) (hgit : env.RefNamesChecked)
    (hc : c.compareInfo = b ++ "...".toList ++ h)
    (hb : ¬ "...".toList <:+: b)
    (hh : ¬ "...".toList <:+: h) (hcolon : ':' ∉ h)
    (hbe : env.IsBranchExist c.GitRepo b = true)
    (hhe : env.IsBranchExist c.GitRepo h = true)
    (hw : env.IsWriterOfRepo c.User c.Repository = true ∨ c.User.IsAdmin = true)
    (hpi : env.GetPullRequestInfo c.GitRepo
      (env.RepoPath c.Repository.OwnerName c.Repository.Name) b h = .ok pi) :
    (ParseCompareInfo env c).1 =
      { headUser := c.Owner, headRepo := some c.Repository, headGitRepo := some c.GitRepo,
        prInfo := some pi, baseBranch := b, headBranch := h } ∧
    (ParseCompareInfo env c).2 =
      { c with
        SameRepo := true
        trace := c.trace ++
          [.IsBranchExist c.GitRepo b, .IsWriterOfRepo c.User c.Repository,
           .IsBranchExist c.GitRepo h,
           .GetPullRequestInfo c.GitRepo
             (env.RepoPath c.Repository.OwnerName c.Repository.Name) b h] } := by
  have hdot : b.getLast? ≠ some '.' := hgit c.GitRepo b hbe
  have hacc : (!env.IsWriterOfRepo c.User c.Repository && !c.User.IsAdmin) = false := by
    rcases hw with hw | hw <;> simp [hw]
  have hres : ParseCompareInfo.resolveHead env c =
      (some { headUser := c.Owner, headRepo := c.Repository, headGitRepo := c.GitRepo,
              baseBranch := b, headBranch := h },
       { c with SameRepo := true, trace := c.trace ++ [.IsBranchExist c.GitRepo b] }) := by
    have hs : Split c.compareInfo "...".toList = [b, h] := by
      rw [hc]; exact Split_dots b h hb hdot hh
    unfold ParseCompareInfo.resolveHead
    simp only [hs, Split_colon_plain h hcolon]
    simp [ParseCompareInfo.findHead, Context.call, hbe]
  unfold ParseCompareInfo
  rw [hres]
  simp [ParseCompareInfo.checkHead, Context.call, hacc, hhe, hpi]

/-- C1 on the sample installation: Alice compares `master...feature` in her
own repository. -/
theorem ParseCompareInfo_same_repo_witness :
    (ParseCompareInfo sampleEnv (request "master...feature".toList alice)).1 =
      { headUser := some alice, headRepo := some baseRepo, headGitRepo := some baseGit,
        prInfo := some { MergeBase := "c0".toList }, baseBranch := "master".toList,
        headBranch := "feature".toList } ∧
    (ParseCompareInfo sampleEnv (request "master...feature".toList alice)).2.SameRepo = true :=
  have h := ParseCompareInfo_same_repo sampleEnv (request "master...feature".toList alice)
    "master".toList "feature".toList { MergeBase := "c0".toList } sampleEnv_refNamesChecked
    (by decide) (by decide) (by decide) (by decide) (by decide) (by decide) (by decide)
    (by decide)
  ⟨h.1, by rw [h.2]⟩

/-- The calls `checkHead` makes are on the head repository and its store;
nothing else of the context changes. -/
theorem checkHead_calls (env : Env) (c : Context) (h : HeadInfo) :
    ∃ evs, (ParseCompareInfo.checkHead env c h).2 = { c with trace := c.trace ++ evs } ∧
      ∀ e ∈ evs, e = .IsWriterOfRepo c.User h.headRepo ∨
        e = .IsBranchExist h.headGitRepo h.headBranch ∨
        e = .GetPullRequestInfo h.headGitRepo
          (env.RepoPath c.Repository.OwnerName c.Repository.Name) h.baseBranch h.headBranch := by
  unfold ParseCompareInfo.checkHead
  simp only []
  split
  · exact ⟨[.IsWriterOfRepo c.User h.headRepo], rfl, by simp⟩
  · split
    · exact ⟨[.IsWriterOfRepo c.User h.headRepo, .IsBranchExist h.headGitRepo h.headBranch],
        by simp [Context.call], by simp⟩
    · split
      · exact ⟨[.IsWriterOfRepo c.User h.headRepo, .IsBranchExist h.headGitRepo h.headBranch,
          .GetPullRequestInfo h.headGitRepo
            (env.RepoPath c.Repository.OwnerName c.Repository.Name) h.baseBranch h.headBranch],
          by simp [Context.call], by simp⟩
      · exact ⟨[.IsWriterOfRepo c.User h.headRepo, .IsBranchExist h.headGitRepo h.headBranch,
          .GetPullRequestInfo h.headGitRepo
            (env.RepoPath c.Repository.OwnerName c.Repository.Name) h.baseBranch h.headBranch],
          by simp [Context.call], by simp⟩

/-- C8 as stated fails where the base branch ends in a dot: for `b = "master."`,
`owner = "alice"` (the owner of the base repository) and `h = "feature"`, all
free of `...` and `:`, the compare string `master....alice:feature` is cut at
its leftmost `...`, the user looked up is `.alice`, who does not exist, and
resolution fails before the `SameRepo` flag is set. -/
theorem ParseCompareInfo_self_qualified_counterexample :
    (¬ "...".toList <:+: "master.".toList ∧ ':' ∉ "master.".toList) ∧
    (¬ "...".toList <:+: "alice".toList ∧ ':' ∉ "alice".toList) ∧
    (¬ "...".toList <:+: "feature".toList ∧ ':' ∉ "feature".toList) ∧
    "alice".toList = baseRepo.OwnerName ∧
    sampleEnv.GetUserByName "alice".toList = .ok alice ∧ alice.ID = baseRepo.OwnerID ∧
    (ParseCompareInfo sampleEnv (request ("master.".toList ++ "...".toList ++ "alice".toList ++
        ":".toList ++ "feature".toList) alice)).2.SameRepo = false ∧
    (ParseCompareInfo sampleEnv (request ("master.".toList ++ "...".toList ++ "alice".toList ++
        ":".toList ++ "feature".toList) alice)).2.trace = [.GetUserByName ".alice".toList] ∧
    (ParseCompareInfo sampleEnv (request ("master.".toList ++ "...".toList ++ "alice".toList ++
        ":".toList ++ "feature".toList) alice)).1 = CompareInfo.empty := by
  decide

/-- C8, amended. For a compare string `b...owner:h` where `b`, `owner` and `h`
do not contain `...`, `b` does not end in a dot, `owner` and `h` have no colon,
and the user lookup of `owner` returns a user whose ID is the base repository's
`OwnerID`: the `SameRepo` flag is set, the head is resolved by the user lookup
and the base-branch check alone (no fork lookup, no other store opened), and
the access check, the head-branch check and the merge-base query run on the
base repository and its git store as head repository and head store. -/
theorem ParseCompareInfo_self_qualified (env : Env) (c : Context) (b o h : Str) (u : User)
    (hc : c.compareInfo = b ++ "...".toList ++ o ++ ":".toList ++ h)
    (hb : ¬ "...".toList <:+: b) (hdot : b.getLast? ≠ some '.')
    (ho : ¬ "...".toList <:+: o) (hoc : ':' ∉ o)
    (hh : ¬ "...".toList <:+: h) (hhc : ':' ∉ h)
    (hu : env.GetUserByName o = .ok u) (hid : u.ID = c.Repository.OwnerID) :
    (ParseCompareInfo env c).2.SameRepo = true ∧
    (∀ e ∈ (ParseCompareInfo env c).2.trace,
      ((∃ userID repoID, e = .HasForkedRepo userID repoID) ∨ ∃ path, e = .OpenRepository path) →
      e ∈ c.trace) ∧
    ParseCompareInfo env c =
      (if env.IsBranchExist c.GitRepo b = true then
        ParseCompareInfo.checkHead env
          { c with
            SameRepo := true
            trace := c.trace ++ [.GetUserByName o, .IsBranchExist c.GitRepo b] }
          { headUser := some u, headRepo := c.Repository, headGitRepo := c.GitRepo,
            baseBranch := b, headBranch := h }
      else
        (CompareInfo.empty,
          { c with
            SameRepo := true
            trace := c.trace ++ [.GetUserByName o, .IsBranchExist c.GitRepo b] })) := by
  have hs : Split c.compareInfo "...".toList = [b, o ++ ":".toList ++ h] := by
    rw [hc, List.append_assoc (b ++ "...".toList) o, List.append_assoc (b ++ "...".toList)]
    refine Split_dots b _ hb hdot ?_
    rw [List.append_assoc]
    exact dots_not_infix_join o h ho hh
  have hres : ParseCompareInfo.resolveHead env c =
      (if env.IsBranchExist c.GitRepo b = true then
        some { headUser := some u, headRepo := c.Repository, headGitRepo := c.GitRepo,
               baseBranch := b, headBranch := h }
       else none,
       { c with
         SameRepo := true
         trace := c.trace ++ [.GetUserByName o, .IsBranchExist c.GitRepo b] }) := by
    unfold ParseCompareInfo.resolveHead
    simp only [hs, Split_colon_owner o h hoc hhc, hu]
    by_cases hbe : env.IsBranchExist c.GitRepo b = true
    · simp [ParseCompareInfo.findHead, Context.call, hbe, hid]
    · simp [ParseCompareInfo.findHead, Context.call, hbe, hid]
  have heq : ParseCompareInfo env c =
      (if env.IsBranchExist c.GitRepo b = true then
        ParseCompareInfo.checkHead env
          { c with
            SameRepo := true
            trace := c.trace ++ [.GetUserByName o, .IsBranchExist c.GitRepo b] }
          { headUser := some u, headRepo := c.Repository, headGitRepo := c.GitRepo,
            baseBranch := b, headBranch := h }
      else
        (CompareInfo.empty,
          { c with
            SameRepo := true
            trace := c.trace ++ [.GetUserByName o, .IsBranchExist c.GitRepo b] })) := by
    unfold ParseCompareInfo
    rw [hres]
    by_cases hbe : env.IsBranchExist c.GitRepo b = true
    · simp only [hbe, if_true]
    · simp only [hbe]
      rfl
  refine ⟨?_, ?_, heq⟩
  · rw [heq]
    split
    · obtain ⟨evs, hctx, _⟩ := checkHead_calls env
        { c with
          SameRepo := true
          trace := c.trace ++ [.GetUserByName o, .IsBranchExist c.GitRepo b] }
        { headUser := some u, headRepo := c.Repository, headGitRepo := c.GitRepo,
          baseBranch := b, headBranch := h }
      rw [hctx]
    · rfl
  · intro e he hk
    rw [heq] at he
    split at he
    · obtain ⟨evs, hctx, hev⟩ := checkHead_calls env
        { c with
          SameRepo := true
          trace := c.trace ++ [.GetUserByName o, .IsBranchExist c.GitRepo b] }
        { headUser := some u, headRepo := c.Repository, headGitRepo := c.GitRepo,
          baseBranch := b, headBranch := h }
      rw [hctx] at he
      simp only [List.mem_append, List.mem_cons, List.mem_singleton, List.not_mem_nil,
        or_false] at he
      rcases he with (he | he | he) | he
      · exact he
      · subst he; rcases hk with ⟨_, _, hk⟩ | ⟨_, hk⟩ <;> cases hk
      · subst he; rcases hk with ⟨_, _, hk⟩ | ⟨_, hk⟩ <;> cases hk
      · rcases hev e he with rfl | rfl | rfl <;>
          rcases hk with ⟨_, _, hk⟩ | ⟨_, hk⟩ <;> cases hk
    · simp only [List.mem_append, List.mem_cons, List.mem_singleton, List.not_mem_nil,
        or_false] at he
      rcases he with he | he | he
      · exact he
      · subst he; rcases hk with ⟨_, _, hk⟩ | ⟨_, hk⟩ <;> cases hk
      · subst he; rcases hk with ⟨_, _, hk⟩ | ⟨_, hk⟩ <;> cases hk

/-- C8 (amended) on the sample installation: Alice compares
`master...alice:feature` in her own repository. -/
theorem ParseCompareInfo_self_qualified_witness :
    (ParseCompareInfo sampleEnv (request "master...alice:feature".toList alice)).2.SameRepo =
      true ∧
    (ParseCompareInfo sampleEnv (request "master...alice:feature".toList alice)).1 =
      { headUser := some alice, headRepo := some baseRepo, headGitRepo := some baseGit,
        prInfo := some { MergeBase := "c0".toList }, baseBranch := "master".toList,
        headBranch := "feature".toList } :=
  ⟨(ParseCompareInfo_self_qualified sampleEnv (request "master...alice:feature".toList alice)
      "master".toList "alice".toList "feature".toList alice (by decide) (by decide) (by decide)
      (by decide) (by decide) (by decide) (by decide) (by decide) (by decide)).1,
    by decide⟩

/-! ## Claims about `CreatePullRequest` -/

/-- The calls a context gained over `c` without writing to a store leave the
store-writing calls of its trace inside `c.trace`. -/
theorem mutation_mem_of_reads {c c1 : Context} (h : c.Reads c1) (e : Event)
    (he : e ∈ c1.trace) (hm : e.isMutation = true) : e ∈ c.trace := by
  obtain ⟨sr, rs, x, evs, rfl, hev⟩ := h
  simp only [List.mem_append] at he
  rcases he with he | he
  · exact he
  · rw [hev e he] at hm
    cases hm

/-- C3. Where the compare spec resolves to head repository `H` and branches
`hb`, `bb` (`ParseCompareInfo` returns four pointers that are not `nil` and two
branch names that are not empty, which is what the handler asks of it), and
the store holds an unmerged pull request `pr` for `(H, base, hb, bb)`: the
handler answers 409 with `pr.IssueID` and `pr.Index` right after the duplicate
check, whatever the form and the diff state, and calls neither
`NewPullRequest` nor `PushToBaseRepo`. -/
theorem CreatePullRequest_duplicate (env : Env) (c c1 : Context) (form : CreateIssueOption)
    (hu : User) (H : Repository) (hg : GitRepository) (pi : PullRequestInfo) (bb hb : Str)
    (pr : PullRequest)
    (hres : ParseCompareInfo env c =
      ({ headUser := some hu, headRepo := some H, headGitRepo := some hg, prInfo := some pi,
         baseBranch := bb, headBranch := hb }, c1))
    (hbb : bb ≠ []) (hhb : hb ≠ [])
    (hdup : env.GetUnmergedPullRequest H.ID c.Repository.ID hb bb = (some pr, none)) :
    CreatePullRequest env c form =
      (c1.call (.GetUnmergedPullRequest H.ID c.Repository.ID hb bb)).JSON 409
        { IssueID := pr.IssueID, Index := pr.Index } ∧
    (CreatePullRequest env c form).responses =
      c.responses ++ [.JSON 409 { IssueID := pr.IssueID, Index := pr.Index }] ∧
    ∀ e ∈ (CreatePullRequest env c form).trace, e.isMutation = true → e ∈ c.trace := by
  have h1 := CreatePullRequest_of_complete env c c1 form hu H hg pi bb hb hres hbb hhb
  rw [hdup] at h1
  simp only [] at h1
  have hro : c.ReadsOnly c1 := by
    have := ParseCompareInfo_readsOnly env c
    rw [hres] at this
    exact this
  refine ⟨h1, ?_, ?_⟩
  · rw [h1]
    obtain ⟨sr, evs, rfl, _⟩ := hro
    rfl
  · intro e he hm
    rw [h1] at he
    exact mutation_mem_of_reads
      ((hro.ro_reads.rd_trans (Context.Reads.rd_call c1
        (.GetUnmergedPullRequest H.ID c.Repository.ID hb bb) rfl)).rd_trans
        (Context.Reads.rd_JSON _ _ _)) e he hm

/-- C3 on the sample installation: Bob proposes the branch `dup` of his fork,
for which an unmerged pull request (issue 31, index 5) exists. -/
theorem CreatePullRequest_duplicate_witness :
    (CreatePullRequest sampleEnv (request "master...bob:dup".toList bob) plainForm).responses =
      (request "master...bob:dup".toList bob).responses ++
        [.JSON 409 { IssueID := openPull.IssueID, Index := openPull.Index }] ∧
    ∀ e ∈ (CreatePullRequest sampleEnv (request "master...bob:dup".toList bob) plainForm).trace,
      e.isMutation = true → e ∈ (request "master...bob:dup".toList bob).trace :=
  (CreatePullRequest_duplicate sampleEnv (request "master...bob:dup".toList bob)
    (ParseCompareInfo sampleEnv (request "master...bob:dup".toList bob)).2 plainForm bob forkRepo
    forkGit { MergeBase := "c0".toList } "master".toList "dup".toList openPull (by decide)
    (by decide) (by decide) (by decide)).2

/-- Where the compare spec resolves and the duplicate check finds nothing
(the store answers `ErrPullRequestNotExist`, or neither a record nor an
error), the handler goes on to the diff check. -/
theorem CreatePullRequest_reaches_create (env : Env) (c c1 : Context)
    (form : CreateIssueOption) (hu : User) (H : Repository) (hg : GitRepository)
    (pi : PullRequestInfo) (bb hb : Str)
    (hres : ParseCompareInfo env c =
      ({ headUser := some hu, headRepo := some H, headGitRepo := some hg, prInfo := some pi,
         baseBranch := bb, headBranch := hb }, c1))
    (hbb : bb ≠ []) (hhb : hb ≠ [])
    (hdup : (env.GetUnmergedPullRequest H.ID c.Repository.ID hb bb).2 =
        some .PullRequestNotExist ∨
      env.GetUnmergedPullRequest H.ID c.Repository.ID hb bb = (none, none)) :
    CreatePullRequest env c form =
      CreatePullRequest.create env (c1.call (.GetUnmergedPullRequest H.ID c.Repository.ID hb bb))
        form hu H hg pi bb hb := by
  have h1 := CreatePullRequest_of_complete env c c1 form hu H hg pi bb hb hres hbb hhb
  rw [h1]
  rcases hdup with hdup | hdup
  · generalize env.GetUnmergedPullRequest H.ID c.Repository.ID hb bb = r at hdup
    obtain ⟨p, e⟩ := r
    simp only [] at hdup
    subst hdup
    simp
  · rw [hdup]

/-- The contexts between which a resolution ran agree on the request. -/
theorem ParseCompareInfo_context (env : Env) (c c1 : Context) (info : CompareInfo)
    (hres : ParseCompareInfo env c = (info, c1)) : c.ReadsOnly c1 := by
  have := ParseCompareInfo_readsOnly env c
  rw [hres] at this
  exact this

/-- C4. Where the head store gives the head branch the commit ID `id`:
`PrepareCompareDiff` reports "nothing to compare" (returns `true`) when `id`
is the merge base, and "proceed" (`false`) for any other `id`; and where
`CreatePullRequest` reaches the diff check (the spec resolves with non-empty
branch names, the duplicate check finds nothing) with `id` equal to the merge
base, it answers 412 and calls neither `NewPullRequest` nor
`PushToBaseRepo`. -/
theorem PrepareCompareDiff_nothing_to_compare (env : Env) (c c1 : Context)
    (form : CreateIssueOption) (hu : User) (H : Repository) (hg : GitRepository)
    (pi : PullRequestInfo) (bb hb id : Str)
    (hid : env.GetBranchCommitID hg hb = .ok id) :
    (∀ cx : Context,
      (PrepareCompareDiff env cx hu H hg pi bb hb).1 = decide (id = pi.MergeBase)) ∧
    (ParseCompareInfo env c =
        ({ headUser := some hu, headRepo := some H, headGitRepo := some hg, prInfo := some pi,
           baseBranch := bb, headBranch := hb }, c1) →
      bb ≠ [] → hb ≠ [] →
      ((env.GetUnmergedPullRequest H.ID c.Repository.ID hb bb).2 = some .PullRequestNotExist ∨
        env.GetUnmergedPullRequest H.ID c.Repository.ID hb bb = (none, none)) →
      id = pi.MergeBase →
      (CreatePullRequest env c form).responses =
          c.responses ++ [.Error 412 "Nothing to compare".toList] ∧
        ∀ e ∈ (CreatePullRequest env c form).trace, e.isMutation = true → e ∈ c.trace) := by
  have hP : ∀ cx : Context, PrepareCompareDiff env cx hu H hg pi bb hb =
      (decide (id = pi.MergeBase), cx.call (.GetBranchCommitID hg hb)) := by
    intro cx
    unfold PrepareCompareDiff
    simp only [hid]
    by_cases h : id = pi.MergeBase <;> simp [h]
  refine ⟨fun cx => by rw [hP cx], ?_⟩
  intro hres hbb hhb hdup hmb
  have hro := ParseCompareInfo_context env c c1 _ hres
  have h1 := CreatePullRequest_reaches_create env c c1 form hu H hg pi bb hb hres hbb hhb hdup
  have h2 : CreatePullRequest env c form =
      ((c1.call (.GetUnmergedPullRequest H.ID c.Repository.ID hb bb)).call
        (.GetBranchCommitID hg hb)).Error 412 "Nothing to compare".toList := by
    rw [h1]
    unfold CreatePullRequest.create
    rw [hP]
    simp [hmb]
  refine ⟨?_, ?_⟩
  · rw [h2]
    obtain ⟨sr, evs, rfl, _⟩ := hro
    rfl
  · intro e he hm
    rw [h2] at he
    exact mutation_mem_of_reads
      (((hro.ro_reads.rd_trans (Context.Reads.rd_call c1
        (.GetUnmergedPullRequest H.ID c.Repository.ID hb bb) rfl)).rd_trans
        (Context.Reads.rd_call _ (.GetBranchCommitID hg hb) rfl)).rd_trans
        (Context.Reads.rd_Error _ _ _)) e he hm

/-- C4 on the sample installation: Bob proposes the branch `stale` of his
fork, whose tip `c0` is the merge base. -/
theorem PrepareCompareDiff_nothing_to_compare_witness :
    (PrepareCompareDiff sampleEnv (request "master...bob:stale".toList bob) bob forkRepo forkGit
      { MergeBase := "c0".toList } "master".toList "stale".toList).1 = true ∧
    (CreatePullRequest sampleEnv (request "master...bob:stale".toList bob) plainForm).responses =
      [.Error 412 "Nothing to compare".toList] ∧
    ∀ e ∈ (CreatePullRequest sampleEnv (request "master...bob:stale".toList bob)
        plainForm).trace,
      e.isMutation = true → e ∈ (request "master...bob:stale".toList bob).trace :=
  have h := PrepareCompareDiff_nothing_to_compare sampleEnv
    (request "master...bob:stale".toList bob)
    (ParseCompareInfo sampleEnv (request "master...bob:stale".toList bob)).2 plainForm bob
    forkRepo forkGit { MergeBase := "c0".toList } "master".toList "stale".toList "c0".toList
    (by decide)
  have h2 := h.2 (by decide) (by decide) (by decide) (by decide) (by decide)
  ⟨h.1 _, h2.1, h2.2⟩

/-- The handler's trace continues the trace the resolution left. -/
theorem CreatePullRequest_grows (env : Env) (c : Context) (form : CreateIssueOption) :
    (ParseCompareInfo env c).2.Grows (CreatePullRequest env c form) := by
  unfold CreatePullRequest
  generalize ParseCompareInfo env c = r
  obtain ⟨info, c1⟩ := r
  simp only []
  split
  · split
    · exact Context.Grows.gr_Error ..
    · split
      · split
        · exact (Context.Grows.gr_call _ _).gr_trans (Context.Grows.gr_Error ..)
        · exact (Context.Grows.gr_call _ _).gr_trans (create_grows ..)
      · exact (Context.Grows.gr_call _ _).gr_trans (Context.Grows.gr_JSON ..)
      · exact (Context.Grows.gr_call _ _).gr_trans (create_grows ..)
  · exact Context.Grows.gr_Error ..

/-- A store-writing call in `P ++ Q`, where `P` has none, comes after `P`. -/
theorem prefix_before_mutation (P Q pre post : List Event) (e : Event)
    (h : P ++ Q = pre ++ e :: post) (hP : ∀ x ∈ P, x.isMutation = false)
    (he : e.isMutation = true) : ∃ t, pre = P ++ t := by
  rcases List.append_eq_append_iff.mp h with ⟨a, ha, _⟩ | ⟨a, ha, hb⟩
  · exact ⟨a, ha⟩
  · cases a with
    | nil => exact ⟨[], by simpa using ha.symm⟩
    | cons x a =>
      simp only [List.cons_append, List.cons.injEq] at hb
      have hx : e ∈ P := by rw [ha, hb.1]; simp
      rw [hP e hx] at he
      cases he

/-- C5. The access check runs before any mutating step: whenever the handler
calls `NewPullRequest` or `PushToBaseRepo`, the compare spec resolved to a head
repository, the acting principal is a writer of it or an administrator, and
the access check on it was made earlier in the trace.  And for a principal who
is neither a writer of the resolved head repository nor an administrator the
handler makes no store-writing call. -/
theorem CreatePullRequest_access_before_mutation (env : Env) (c : Context)
    (form : CreateIssueOption) :
    (∀ pre e post, (CreatePullRequest env c form).trace = c.trace ++ pre ++ e :: post →
      e.isMutation = true →
      ∃ hd c0, ParseCompareInfo.resolveHead env c = (some hd, c0) ∧
        (env.IsWriterOfRepo c.User hd.headRepo = true ∨ c.User.IsAdmin = true) ∧
        Event.IsWriterOfRepo c.User hd.headRepo ∈ pre) ∧
    (∀ hd c0, ParseCompareInfo.resolveHead env c = (some hd, c0) →
      env.IsWriterOfRepo c.User hd.headRepo = false → c.User.IsAdmin = false →
      ∀ e ∈ (CreatePullRequest env c form).trace, e.isMutation = true → e ∈ c.trace) := by
  have hro := ParseCompareInfo_readsOnly env c
  have hgr := CreatePullRequest_grows env c form
  -- an empty result ends the handler without a store-writing call
  have hempty : (ParseCompareInfo env c).1 = CompareInfo.empty →
      ∀ e ∈ (CreatePullRequest env c form).trace, e.isMutation = true → e ∈ c.trace := by
    intro h e he hm
    rw [CreatePullRequest_of_empty env c form h] at he
    exact mutation_mem_of_reads (hro.ro_reads.rd_trans (Context.Reads.rd_Error _ _ _)) e he hm
  constructor
  · intro pre e post htr hm
    rcases hr : ParseCompareInfo.resolveHead env c with ⟨_ | hd, c0⟩
    · exfalso
      have h1 : (ParseCompareInfo env c).1 = CompareInfo.empty := by
        unfold ParseCompareInfo; rw [hr]
      have := hempty h1 e (by rw [htr]; simp) hm
      obtain ⟨sr, evs, hc1, hev⟩ := hro
      rw [CreatePullRequest_of_empty env c form h1, hc1] at htr
      simp only [Context.Error, List.append_assoc, List.append_cancel_left_eq] at htr
      have he : e ∈ evs := by rw [htr]; simp
      rw [hev e he] at hm
      cases hm
    · have hpc : ParseCompareInfo env c = ParseCompareInfo.checkHead env c0 hd := by
        unfold ParseCompareInfo; rw [hr]
      have hc0 : c.ReadsOnly c0 := by
        have := resolveHead_readsOnly env c
        rw [hr] at this
        exact this
      have hU : c0.User = c.User := by
        obtain ⟨sr, evs, rfl, _⟩ := hc0
        rfl
      rcases hH : (ParseCompareInfo.checkHead env c0 hd).1.headRepo with _ | H
      · exfalso
        have h1 : (ParseCompareInfo env c).1 = CompareInfo.empty := by
          rw [hpc]; exact checkHead_failed env c0 hd hH
        obtain ⟨sr, evs, hc1, hev⟩ := hro
        rw [CreatePullRequest_of_empty env c form h1, hc1] at htr
        simp only [Context.Error, List.append_assoc, List.append_cancel_left_eq] at htr
        have he : e ∈ evs := by rw [htr]; simp
        rw [hev e he] at hm
        cases hm
      · obtain ⟨hHd, hacc, evs1, htr1⟩ := checkHead_headRepo env c0 hd H hH
        subst hHd
        rw [hU] at hacc htr1
        refine ⟨hd, c0, rfl, hacc, ?_⟩
        obtain ⟨sr0, evs0, hc0eq, _⟩ := hc0
        obtain ⟨sr, evs, hc1, hev⟩ := hro
        obtain ⟨evs2, hfin⟩ := hgr
        rw [hpc] at hc1 hfin
        have htr0 : c0.trace = c.trace ++ evs0 := by rw [hc0eq]
        have hP : evs = evs0 ++ Event.IsWriterOfRepo c.User hd.headRepo :: evs1 := by
          have h2 := htr1
          rw [hc1, htr0] at h2
          simp only [List.append_assoc, List.append_cancel_left_eq] at h2
          exact h2
        have hall : evs ++ evs2 = pre ++ e :: post := by
          have h3 := hfin
          rw [htr, hc1] at h3
          simp only [List.append_assoc, List.append_cancel_left_eq] at h3
          exact h3.symm
        obtain ⟨t, ht⟩ := prefix_before_mutation evs evs2 pre post e hall hev hm
        rw [ht, hP]
        simp
  · intro hd c0 hr hw ha e he hm
    have hpc : ParseCompareInfo env c = ParseCompareInfo.checkHead env c0 hd := by
      unfold ParseCompareInfo; rw [hr]
    have hU : c0.User = c.User := by
      have := resolveHead_readsOnly env c
      rw [hr] at this
      obtain ⟨sr, evs, h, _⟩ := this
      simp only [] at h
      rw [h]
    have h1 : (ParseCompareInfo env c).1 = CompareInfo.empty := by
      rw [hpc]
      unfold ParseCompareInfo.checkHead
      simp [Context.call, hU, hw, ha]
    exact hempty h1 e he hm

/-- C6 as stated fails: Bob, who neither writes to `alice/proj` nor is an
administrator, requests `master...feature` on it.  The spec is well-formed and
resolves to the base repository as head repository, and the answer is 400 Bad
Request, the answer given to a malformed spec, not a 403. -/
theorem CreatePullRequest_forbidden_counterexample :
    (ParseCompareInfo.resolveHead sampleEnv (request "master...feature".toList bob)).1 =
      some { headUser := some alice, headRepo := baseRepo, headGitRepo := baseGit,
             baseBranch := "master".toList, headBranch := "feature".toList } ∧
    sampleEnv.IsWriterOfRepo bob baseRepo = false ∧ bob.IsAdmin = false ∧
    (CreatePullRequest sampleEnv (request "master...feature".toList bob) plainForm).responses =
      [.Error 400 "Failed to parse compare info".toList] ∧
    (CreatePullRequest sampleEnv (request "master".toList bob) plainForm).responses =
      [.Error 400 "Failed to parse compare info".toList] := by
  decide

/-- C6, amended. Where the compare spec is well-formed and resolves to a head
repository of which the acting principal is neither a writer nor an
administrator, the handler answers 400 Bad Request with the message of a
failed parse, right after the access check, and writes no other response. -/
theorem CreatePullRequest_forbidden (env : Env) (c c0 : Context) (form : CreateIssueOption)
    (hd : HeadInfo)
    (hr : ParseCompareInfo.resolveHead env c = (some hd, c0))
    (hw : env.IsWriterOfRepo c.User hd.headRepo = false) (ha : c.User.IsAdmin = false) :
    CreatePullRequest env c form =
      (c0.call (.IsWriterOfRepo c.User hd.headRepo)).Error 400
        "Failed to parse compare info".toList ∧
    (CreatePullRequest env c form).responses =
      c.responses ++ [.Error 400 "Failed to parse compare info".toList] := by
  have hc0 : c.ReadsOnly c0 := by
    have := resolveHead_readsOnly env c
    rw [hr] at this
    exact this
  have hU : c0.User = c.User := by
    obtain ⟨sr, evs, rfl, _⟩ := hc0
    rfl
  have hpc : ParseCompareInfo env c =
      (CompareInfo.empty, c0.call (.IsWriterOfRepo c.User hd.headRepo)) := by
    unfold ParseCompareInfo
    rw [hr]
    unfold ParseCompareInfo.checkHead
    simp [Context.call, hU, hw, ha]
  have h1 := CreatePullRequest_of_empty env c form (by rw [hpc])
  rw [hpc] at h1
  refine ⟨h1, ?_⟩
  rw [h1]
  obtain ⟨sr, evs, rfl, _⟩ := hc0
  rfl

/-- C6 (amended) on the sample installation: Bob requests `master...feature`
on Alice's repository. -/
theorem CreatePullRequest_forbidden_witness :
    (CreatePullRequest sampleEnv (request "master...feature".toList bob) plainForm).responses =
      (request "master...feature".toList bob).responses ++
        [.Error 400 "Failed to parse compare info".toList] :=
  (CreatePullRequest_forbidden sampleEnv (request "master...feature".toList bob)
    (ParseCompareInfo.resolveHead sampleEnv (request "master...feature".toList bob)).2 plainForm
    { headUser := some alice, headRepo := baseRepo, headGitRepo := baseGit,
      baseBranch := "master".toList, headBranch := "feature".toList }
    (by decide) (by decide) (by decide)).2

/-- C7 as stated fails for a principal without write capability on the base
repository: Bob proposes the branch `feature` of his fork to `alice/proj` with
milestone 9, which does not resolve there.  `ValidateRepoMetas` answers
nothing and returns milestone 0, and the pull request is created (201) with
`MilestoneID = 0`: the milestone is dropped silently, whether or not `c.Error`
sets what `c.HasError` reads. -/
theorem ValidateRepoMetas_milestone_counterexample :
    milestoneForm.Milestone > 0 ∧
    sampleEnv.GetMilestoneByID baseRepo milestoneForm.Milestone =
      .error (.Other "milestone does not exist".toList) ∧
    (ValidateRepoMetas sampleEnv (request "master...bob:feature".toList bob)
      milestoneForm).ctx = request "master...bob:feature".toList bob ∧
    (ValidateRepoMetas sampleEnv (request "master...bob:feature".toList bob)
      milestoneForm).milestoneID = 0 ∧
    (CreatePullRequest sampleEnv (request "master...bob:feature".toList bob)
      milestoneForm).responses = [.JSON 201 { IssueID := 42, Index := 7 }] ∧
    Event.NewPullRequest baseRepo
      (CreatePullRequest.pullIssue sampleEnv (request "master...bob:feature".toList bob)
        milestoneForm 0 0) [] (some [])
      (CreatePullRequest.pullRequest (request "master...bob:feature".toList bob) bob forkRepo
        { MergeBase := "c0".toList } "master".toList "feature".toList) "diff".toList ∈
      (CreatePullRequest sampleEnv (request "master...bob:feature".toList bob)
        milestoneForm).trace ∧
    (CreatePullRequest sampleEnv
      { request "master...bob:feature".toList bob with errorSetsHasError := true }
      milestoneForm).responses = [.JSON 201 { IssueID := 42, Index := 7 }] := by
  decide

/-- For a principal without write capability on the base repository
`ValidateRepoMetas` returns `nil, 0, 0` whatever the form holds, calls no
store and leaves the context alone. -/
theorem ValidateRepoMetas_of_not_writer (env : Env) (cx : Context) (form : CreateIssueOption)
    (hw : cx.IsWriter = false) :
    ValidateRepoMetas env cx form =
      { labelIDs := [], milestoneID := 0, assigneeID := 0, checked := [], ctx := cx } := by
  unfold ValidateRepoMetas RetrieveRepoMetas
  simp [hw]

/-- The context `PrepareCompareDiff` leaves. -/
theorem PrepareCompareDiff_context (env : Env) (c : Context) (hu : User) (hr : Repository)
    (hg : GitRepository) (pi : PullRequestInfo) (bb hb : Str) :
    (PrepareCompareDiff env c hu hr hg pi bb hb).2 = c.call (.GetBranchCommitID hg hb) := by
  unfold PrepareCompareDiff
  simp only []
  split
  · rfl
  · split <;> rfl

/-- For a principal without write capability on the base repository the
creation step does not read the milestone of the form. -/
theorem create_of_not_writer (env : Env) (cx : Context) (form : CreateIssueOption)
    (hu : User) (hr : Repository) (hg : GitRepository) (pi : PullRequestInfo) (bb hb : Str)
    (hw : cx.IsWriter = false) :
    CreatePullRequest.create env cx form hu hr hg pi bb hb =
      CreatePullRequest.create env cx { form with Milestone := 0 } hu hr hg pi bb hb := by
  have h1 := PrepareCompareDiff_context env cx hu hr hg pi bb hb
  unfold CreatePullRequest.create
  generalize PrepareCompareDiff env cx hu hr hg pi bb hb = r at h1
  obtain ⟨ntc, c1⟩ := r
  simp only [] at h1 ⊢
  subst h1
  have hw1 : (cx.call (.GetBranchCommitID hg hb)).IsWriter = false := hw
  rw [ValidateRepoMetas_of_not_writer env _ form hw1,
    ValidateRepoMetas_of_not_writer env _ { form with Milestone := 0 } hw1]
  rfl

/-- C7, amended. For a request carrying a milestone identifier above zero
that does not resolve in the base repository: if the principal has write
capability on the base repository, `ValidateRepoMetas` returns a validation
failure (it answers 500 and returns `nil, 0, 0`); if not, `ValidateRepoMetas`
clears the milestone without an error (it returns `nil, 0, 0`, calls no store
and writes nothing), and `CreatePullRequest` goes on as for a form without a
milestone. -/
theorem ValidateRepoMetas_milestone_unresolved (env : Env) (c : Context)
    (form : CreateIssueOption) (err : GoError) (hm : form.Milestone > 0)
    (herr : env.GetMilestoneByID c.Repository form.Milestone = .error err) :
    (c.IsWriter = true →
      (ValidateRepoMetas env c form).labelIDs = [] ∧
      (ValidateRepoMetas env c form).milestoneID = 0 ∧
      (ValidateRepoMetas env c form).assigneeID = 0 ∧
      ∃ rs, (ValidateRepoMetas env c form).ctx.responses =
        rs ++ [.Error 500 "Failed to get milestone by ID: %+v".toList]) ∧
    (c.IsWriter = false →
      ValidateRepoMetas env c form =
        { labelIDs := [], milestoneID := 0, assigneeID := 0, checked := [], ctx := c } ∧
      CreatePullRequest env c form = CreatePullRequest env c { form with Milestone := 0 }) := by
  constructor
  · intro hw
    have h1 := RetrieveRepoMetas_reads env c c.Repository
    unfold ValidateRepoMetas
    simp only []
    generalize RetrieveRepoMetas env c c.Repository = r at h1
    obtain ⟨labels, c1⟩ := r
    simp only [] at h1 ⊢
    have hw1 : c1.IsWriter = true := by
      obtain ⟨sr, rs, x, evs, rfl, _⟩ := h1
      exact hw
    simp only [hw1, Bool.not_true, Bool.false_eq_true, if_false, hm, if_true, herr]
    exact ⟨trivial, trivial, trivial, _, rfl⟩
  · intro hw
    refine ⟨ValidateRepoMetas_of_not_writer env c form hw, ?_⟩
    have hro := ParseCompareInfo_readsOnly env c
    unfold CreatePullRequest
    generalize ParseCompareInfo env c = r at hro
    obtain ⟨info, c1⟩ := r
    simp only [] at hro ⊢
    have hw1 : ∀ ev, (c1.call ev).IsWriter = false := by
      intro ev
      obtain ⟨sr, evs, rfl, _⟩ := hro
      exact hw
    split
    · split
      · rfl
      · split
        · split
          · rfl
          · exact create_of_not_writer env _ form _ _ _ _ _ _ (hw1 _)
        · rfl
        · exact create_of_not_writer env _ form _ _ _ _ _ _ (hw1 _)
    · rfl

/-- C7 (amended) on the sample installation: Alice, the owner of the base
repository, submits milestone 9, which does not resolve; validation answers
500 and returns `nil, 0, 0`. -/
theorem ValidateRepoMetas_milestone_unresolved_witness :
    (ValidateRepoMetas sampleEnv (request "master...feature".toList alice)
      milestoneForm).labelIDs = [] ∧
    (ValidateRepoMetas sampleEnv (request "master...feature".toList alice)
      milestoneForm).milestoneID = 0 ∧
    (ValidateRepoMetas sampleEnv (request "master...feature".toList alice)
      milestoneForm).assigneeID = 0 ∧
    ∃ rs, (ValidateRepoMetas sampleEnv (request "master...feature".toList alice)
      milestoneForm).ctx.responses =
        rs ++ [.Error 500 "Failed to get milestone by ID: %+v".toList] :=
  (ValidateRepoMetas_milestone_unresolved sampleEnv (request "master...feature".toList alice)
    milestoneForm (.Other "milestone does not exist".toList) (by decide) (by decide)).1
    (by decide)

/-- The creation step, where the diff check says "proceed", validation
leaves no error (`metas` is its result) and the patch, store and push calls
succeed. -/
theorem create_of_success (env : Env) (cx : Context) (form : CreateIssueOption) (hu : User)
    (F : Repository) (hg : GitRepository) (pi : PullRequestInfo) (bb hb id patch : Str)
    (issueID : Int) (metas : RepoMetas)
    (hid : env.GetBranchCommitID hg hb = .ok id) (hne : id ≠ pi.MergeBase)
    (hm : ValidateRepoMetas env (cx.call (.GetBranchCommitID hg hb)) form = metas)
    (hmeta : metas.ctx.hasError = false)
    (hpatch : env.GetPatch hg pi.MergeBase hb = .ok patch)
    (hnew : env.NewPullRequest cx.Repository
      (CreatePullRequest.pullIssue env metas.ctx form metas.milestoneID metas.assigneeID)
      metas.labelIDs (if env.AttachmentEnabled then some [] else none)
      (CreatePullRequest.pullRequest metas.ctx hu F pi bb hb) patch = .ok issueID)
    (hpush : env.PushToBaseRepo (CreatePullRequest.pullRequest metas.ctx hu F pi bb hb) =
      .ok ()) :
    CreatePullRequest.create env cx form hu F hg pi bb hb =
      (((metas.ctx.call (.GetPatch hg pi.MergeBase hb)).call
        (.NewPullRequest cx.Repository
          (CreatePullRequest.pullIssue env metas.ctx form metas.milestoneID metas.assigneeID)
          metas.labelIDs (if env.AttachmentEnabled then some [] else none)
          (CreatePullRequest.pullRequest metas.ctx hu F pi bb hb) patch)).call
        (.PushToBaseRepo (CreatePullRequest.pullRequest metas.ctx hu F pi bb hb))).JSON 201
        { IssueID := issueID, Index := env.NextIssueIndex metas.ctx.Repository } := by
  have hP : PrepareCompareDiff env cx hu F hg pi bb hb =
      (false, cx.call (.GetBranchCommitID hg hb)) := by
    unfold PrepareCompareDiff
    simp [hid, hne]
  have hI : ∀ ev, CreatePullRequest.pullIssue env (metas.ctx.call ev) form metas.milestoneID
      metas.assigneeID =
      CreatePullRequest.pullIssue env metas.ctx form metas.milestoneID metas.assigneeID :=
    fun _ => rfl
  have hR : ∀ ev, CreatePullRequest.pullRequest (metas.ctx.call ev) hu F pi bb hb =
      CreatePullRequest.pullRequest metas.ctx hu F pi bb hb := fun _ => rfl
  have hH : metas.ctx.HasError = false := hmeta
  unfold CreatePullRequest.create
  rw [hP]
  simp only [Bool.false_eq_true, if_false, hm, hH, hpatch, hI, hR, hnew, hpush]
  rfl

/-- C9. Where resolution succeeds with head owner `hu`, head repository `F`
and non-empty branches `bb`, `hb` (which includes the access check), no
unmerged proposal exists for the tuple (the store answers
`ErrPullRequestNotExist`, or neither a record nor an error), the head commit
`id` differs from the merge base, metadata validation raises no error (it
answers nothing and leaves the context without an error), and the patch, store
and push calls succeed: the handler answers 201 with the ID the store gave the issue and the
base repository's next issue index; the pull request handed to the store and
pushed has `HeadRepoID = F.ID`, `BaseRepoID` the base repository's ID, the
resolved branch names, `HeadUserName = hu.Name` and the merge base of the
resolution; the patch handed over is the provider's for (merge base, head
branch); the issue is marked `IsPull`, belongs to the base repository and
carries its next issue index. -/
theorem CreatePullRequest_created (env : Env) (c c1 : Context) (form : CreateIssueOption)
    (hu : User) (F : Repository) (hg : GitRepository) (pi : PullRequestInfo)
    (bb hb id patch : Str) (issueID : Int)
    (hres : ParseCompareInfo env c =
      ({ headUser := some hu, headRepo := some F, headGitRepo := some hg, prInfo := some pi,
         baseBranch := bb, headBranch := hb }, c1))
    (hbb : bb ≠ []) (hhb : hb ≠ [])
    (hdup : (env.GetUnmergedPullRequest F.ID c.Repository.ID hb bb).2 =
        some .PullRequestNotExist ∨
      env.GetUnmergedPullRequest F.ID c.Repository.ID hb bb = (none, none))
    (hid : env.GetBranchCommitID hg hb = .ok id) (hne : id ≠ pi.MergeBase)
    (hquiet : (ValidateRepoMetas env
      ((c1.call (.GetUnmergedPullRequest F.ID c.Repository.ID hb bb)).call
        (.GetBranchCommitID hg hb)) form).ctx.responses =
      ((c1.call (.GetUnmergedPullRequest F.ID c.Repository.ID hb bb)).call
        (.GetBranchCommitID hg hb)).responses)
    (hmeta : (ValidateRepoMetas env
      ((c1.call (.GetUnmergedPullRequest F.ID c.Repository.ID hb bb)).call
        (.GetBranchCommitID hg hb)) form).ctx.hasError = false)
    (hpatch : env.GetPatch hg pi.MergeBase hb = .ok patch)
    (hnew : env.NewPullRequest c.Repository
      (CreatePullRequest.pullIssue env c form
        (ValidateRepoMetas env
          ((c1.call (.GetUnmergedPullRequest F.ID c.Repository.ID hb bb)).call
            (.GetBranchCommitID hg hb)) form).milestoneID
        (ValidateRepoMetas env
          ((c1.call (.GetUnmergedPullRequest F.ID c.Repository.ID hb bb)).call
            (.GetBranchCommitID hg hb)) form).assigneeID)
      (ValidateRepoMetas env
        ((c1.call (.GetUnmergedPullRequest F.ID c.Repository.ID hb bb)).call
          (.GetBranchCommitID hg hb)) form).labelIDs
      (if env.AttachmentEnabled then some [] else none)
      (CreatePullRequest.pullRequest c hu F pi bb hb) patch = .ok issueID)
    (hpush : env.PushToBaseRepo (CreatePullRequest.pullRequest c hu F pi bb hb) = .ok ()) :
    (CreatePullRequest env c form).responses =
      c.responses ++ [.JSON 201 { IssueID := issueID, Index := env.NextIssueIndex c.Repository }] ∧
    Event.NewPullRequest c.Repository
      (CreatePullRequest.pullIssue env c form
        (ValidateRepoMetas env
          ((c1.call (.GetUnmergedPullRequest F.ID c.Repository.ID hb bb)).call
            (.GetBranchCommitID hg hb)) form).milestoneID
        (ValidateRepoMetas env
          ((c1.call (.GetUnmergedPullRequest F.ID c.Repository.ID hb bb)).call
            (.GetBranchCommitID hg hb)) form).assigneeID)
      (ValidateRepoMetas env
        ((c1.call (.GetUnmergedPullRequest F.ID c.Repository.ID hb bb)).call
          (.GetBranchCommitID hg hb)) form).labelIDs
      (if env.AttachmentEnabled then some [] else none)
      (CreatePullRequest.pullRequest c hu F pi bb hb) patch ∈
        (CreatePullRequest env c form).trace ∧
    Event.PushToBaseRepo (CreatePullRequest.pullRequest c hu F pi bb hb) ∈
      (CreatePullRequest env c form).trace ∧
    (CreatePullRequest.pullRequest c hu F pi bb hb).HeadRepoID = F.ID ∧
    (CreatePullRequest.pullRequest c hu F pi bb hb).BaseRepoID = c.Repository.ID ∧
    (CreatePullRequest.pullRequest c hu F pi bb hb).HeadBranch = hb ∧
    (CreatePullRequest.pullRequest c hu F pi bb hb).BaseBranch = bb ∧
    (CreatePullRequest.pullRequest c hu F pi bb hb).HeadUserName = hu.Name ∧
    (CreatePullRequest.pullRequest c hu F pi bb hb).MergeBase = pi.MergeBase ∧
    (∀ m a, (CreatePullRequest.pullIssue env c form m a).IsPull = true ∧
      (CreatePullRequest.pullIssue env c form m a).RepoID = c.Repository.ID ∧
      (CreatePullRequest.pullIssue env c form m a).Index = env.NextIssueIndex c.Repository) := by
  have hro := ParseCompareInfo_context env c c1 _ hres
  have h1 := CreatePullRequest_reaches_create env c c1 form hu F hg pi bb hb hres hbb hhb hdup
  have hc2 : c.Reads ((c1.call (.GetUnmergedPullRequest F.ID c.Repository.ID hb bb)).call
      (.GetBranchCommitID hg hb)) :=
    (hro.ro_reads.rd_trans (Context.Reads.rd_call c1
      (.GetUnmergedPullRequest F.ID c.Repository.ID hb bb) rfl)).rd_trans
      (Context.Reads.rd_call _ (.GetBranchCommitID hg hb) rfl)
  have hrd := hc2.rd_trans (ValidateRepoMetas_reads env
    ((c1.call (.GetUnmergedPullRequest F.ID c.Repository.ID hb bb)).call
      (.GetBranchCommitID hg hb)) form)
  have hR1 : c1.Repository = c.Repository := by
    obtain ⟨sr, evs, rfl, _⟩ := hro
    rfl
  have hresp1 : c1.responses = c.responses := by
    obtain ⟨sr, evs, rfl, _⟩ := hro
    rfl
  obtain ⟨metas, hm⟩ : ∃ m, ValidateRepoMetas env
      ((c1.call (.GetUnmergedPullRequest F.ID c.Repository.ID hb bb)).call
        (.GetBranchCommitID hg hb)) form = m := ⟨_, rfl⟩
  rw [hm] at hmeta hnew hquiet hrd ⊢
  have hresp : metas.ctx.responses = c.responses := by
    rw [hquiet]
    exact hresp1
  obtain ⟨sr, rs, x, evs, hctx, _⟩ := hrd
  have hRepo : metas.ctx.Repository = c.Repository := by rw [hctx]
  have hUser : metas.ctx.User = c.User := by rw [hctx]
  have hI : ∀ m a, CreatePullRequest.pullIssue env metas.ctx form m a =
      CreatePullRequest.pullIssue env c form m a := by
    intro m a
    simp [CreatePullRequest.pullIssue, hRepo, hUser]
  have hR : CreatePullRequest.pullRequest metas.ctx hu F pi bb hb =
      CreatePullRequest.pullRequest c hu F pi bb hb := by
    simp [CreatePullRequest.pullRequest, hRepo]
  have hR2 : (c1.call (.GetUnmergedPullRequest F.ID c.Repository.ID hb bb)).Repository =
      c.Repository := hR1
  have hfin := create_of_success env
    (c1.call (.GetUnmergedPullRequest F.ID c.Repository.ID hb bb)) form hu F hg pi bb hb id
    patch issueID metas hid hne hm hmeta hpatch
    (by rw [hI, hR, hR2]; exact hnew) (by rw [hR]; exact hpush)
  rw [hI, hR, hRepo, hR2] at hfin
  rw [h1, hfin]
  refine ⟨?_, ?_, ?_, rfl, rfl, rfl, rfl, rfl, rfl, fun m a => ⟨rfl, rfl, rfl⟩⟩
  · simp [Context.JSON, Context.call, hresp]
  · simp [Context.JSON, Context.call]
  · simp [Context.JSON, Context.call]

/-- C9 on the sample installation: Bob proposes the branch `feature` of his
fork to `alice/proj`; the store gives the issue the ID 42 and the next issue
index of `alice/proj` is 7. -/
theorem CreatePullRequest_created_witness :
    (CreatePullRequest sampleEnv (request "master...bob:feature".toList bob) plainForm).responses =
      (request "master...bob:feature".toList bob).responses ++
        [.JSON 201 { IssueID := 42, Index := sampleEnv.NextIssueIndex baseRepo }] ∧
    Event.PushToBaseRepo
      (CreatePullRequest.pullRequest (request "master...bob:feature".toList bob) bob forkRepo
        { MergeBase := "c0".toList } "master".toList "feature".toList) ∈
      (CreatePullRequest sampleEnv (request "master...bob:feature".toList bob) plainForm).trace :=
  have h := CreatePullRequest_created sampleEnv (request "master...bob:feature".toList bob)
    (ParseCompareInfo sampleEnv (request "master...bob:feature".toList bob)).2 plainForm bob
    forkRepo forkGit { MergeBase := "c0".toList } "master".toList "feature".toList "c1".toList
    "diff".toList 42 (by decide) (by decide) (by decide) (by decide) (by decide) (by decide)
    (by decide) (by decide) (by decide) (by decide) (by decide)
  ⟨h.1, h.2.2.1⟩

/-! ## Claims about `ValidateRepoMetas` -/

/-- The identifiers `appendNew` collects are those seen before and those
added. -/
theorem mem_foldl_appendNew (i : Int) : ∀ (l acc : List Int),
    i ∈ l.foldl appendNew acc ↔ i ∈ acc ∨ i ∈ l
  | [], acc => by simp
  | x :: l, acc => by
    rw [List.foldl_cons, mem_foldl_appendNew i l (appendNew acc x)]
    unfold appendNew
    by_cases hx : x ∈ acc
    · rw [if_pos hx]
      constructor
      · rintro (h | h)
        · exact Or.inl h
        · exact Or.inr (List.mem_cons_of_mem _ h)
      · rintro (h | h)
        · exact Or.inl h
        · rcases List.mem_cons.mp h with rfl | h
          · exact Or.inl hx
          · exact Or.inr h
    · rw [if_neg hx]
      simp only [List.mem_append, List.mem_singleton, List.mem_cons]
      tauto

/-- The identifiers `appendNew` collects are pairwise different. -/
theorem nodup_foldl_appendNew : ∀ (l acc : List Int),
    acc.Nodup → (l.foldl appendNew acc).Nodup
  | [], _, h => h
  | x :: l, acc, h => by
    rw [List.foldl_cons]
    apply nodup_foldl_appendNew l
    unfold appendNew
    by_cases hx : x ∈ acc
    · rw [if_pos hx]; exact h
    · rw [if_neg hx]
      exact List.Nodup.append h (List.nodup_singleton x) (by simpa using hx)

/-- C10. For a label-token string submitted by a principal with write
capability on the base repository, where validation reaches its final return
(the milestone and assignee identifiers are not above zero, or resolve): the
`labelIDs` returned are the integers parsed from the well-formed
comma-separated tokens, a malformed token contributes nothing and raises no
error (the context is left as for an empty label string), and the list
returned holds no identifier twice. -/
theorem ValidateRepoMetas_labels (env : Env) (c : Context) (f : CreateIssueOption)
    (hw : c.IsWriter = true)
    (hm : f.Milestone ≤ 0 ∨ env.GetMilestoneByID c.Repository f.Milestone = .ok ())
    (ha : f.AssigneeID ≤ 0 ∨ env.GetAssigneeByID c.Repository f.AssigneeID = .ok ()) :
    (∀ i, i ∈ (ValidateRepoMetas env c f).labelIDs ↔
      ∃ t ∈ Split f.LabelIDs ",".toList, ParseInt64 t = some i) ∧
    (ValidateRepoMetas env c f).ctx = (ValidateRepoMetas env c { f with LabelIDs := [] }).ctx ∧
    (ValidateRepoMetas env c f).labelIDs.Nodup := by
  have h1 := RetrieveRepoMetas_reads env c c.Repository
  have key : (ValidateRepoMetas env c f).labelIDs =
        StringsToInt64s (Split f.LabelIDs ",".toList) ∧
      (ValidateRepoMetas env c f).ctx =
        (ValidateRepoMetas env c { f with LabelIDs := [] }).ctx := by
    unfold ValidateRepoMetas
    simp only []
    generalize RetrieveRepoMetas env c c.Repository = r at h1
    obtain ⟨labels, c1⟩ := r
    simp only [] at h1 ⊢
    have hw1 : c1.IsWriter = true := by
      obtain ⟨sr, rs, x, evs, rfl, _⟩ := h1
      exact hw
    simp only [hw1, Bool.not_true, Bool.false_eq_true, if_false]
    rcases hm with hm | hm <;> rcases ha with ha | ha
    · simp [not_lt.mpr hm, not_lt.mpr ha]
    · by_cases ha0 : f.AssigneeID > 0 <;> simp [not_lt.mpr hm, ha, ha0]
    · by_cases hm0 : f.Milestone > 0 <;> simp [not_lt.mpr ha, hm, hm0]
    · by_cases hm0 : f.Milestone > 0 <;> by_cases ha0 : f.AssigneeID > 0 <;>
        simp [hm, ha, hm0, ha0]
  refine ⟨?_, key.2, ?_⟩
  · intro i
    rw [key.1]
    unfold StringsToInt64s
    rw [mem_foldl_appendNew, List.mem_filterMap]
    simp
  · rw [key.1]
    exact nodup_foldl_appendNew _ [] List.nodup_nil

/-- C10 on the sample installation: Alice submits the tokens `2,1`. -/
theorem ValidateRepoMetas_labels_witness :
    (∀ i, i ∈ (ValidateRepoMetas sampleEnv (request "master...feature".toList alice)
        labelsForm).labelIDs ↔
      ∃ t ∈ Split labelsForm.LabelIDs ",".toList, ParseInt64 t = some i) ∧
    (ValidateRepoMetas sampleEnv (request "master...feature".toList alice)
      labelsForm).labelIDs = [2, 1] :=
  ⟨(ValidateRepoMetas_labels sampleEnv (request "master...feature".toList alice) labelsForm
    (by decide) (by decide) (by decide)).1, by decide⟩

end Gogs
